import Mathlib

set_option maxRecDepth 4000

/-!
# Verification of the incremental Reddit → document-store sync engine

Shallow embedding, in Lean 4, of the synchronization core of the
`reddit-contextual-agent` repository:

* `src/reddit_agent/models.py`   — data model (`RedditPost`, `RedditComment`,
  `TrackedPost`, `PostStatus`);
* `src/reddit_agent/db/base.py`  — the content-change detector
  `compute_content_hash`;
* `src/reddit_agent/db/supabase.py` — the persistent-store operations,
  modelled as pure functions on an explicit relational state `DB`;
* `src/reddit_agent/pipeline.py` — the pipeline orchestrator, modelled as
  state-passing functions over `DB`, run statistics and a trace of the
  remote / store calls performed.

External collaborators (the Reddit scraper and the Contextual document store)
are modelled by an environment `Env` of deterministic response functions;
fallible remote calls return `Except`/`Option` values.  Timestamps are
integers (epoch seconds); the timezone projection used by the daily
idempotency guard is an explicit function in the environment.  The
cryptographic digests (`hashlib.md5 … [:8]`, `json.dumps` + `hashlib.sha256 …
[:16]`) are beyond a shallow embedding and are abstracted as digest-function
parameters; everything the digests are applied to is modelled exactly.
-/

namespace RedditAgent

/-! ## Data model (`models.py`) -/

/-- `PostStatus` from `models.py`: status of a post in the tracking system. -/
inductive PostStatus
  | new
  | updating
  | frozen
deriving DecidableEq

/-- `RedditComment` from `models.py` (the fields consumed by the sync core). -/
structure RedditComment where
  id : String
  author : String
  body : String
  score : Int
  created_utc : Int
  parent_id : String
  is_submitter : Bool
  depth : Int
deriving DecidableEq

/-- `RedditPost` from `models.py` (the fields consumed by the sync core).
`upvote_ratio` is a float in the source but is only ever compared for
equality, so it is modelled as a scaled integer. -/
structure RedditPost where
  id : String
  subreddit : String
  author : String
  title : String
  selftext : String
  score : Int
  upvote_ratio : Int
  num_comments : Int
  created_utc : Int
  comments : List RedditComment
  scraped_at : Int
  last_updated : Int
  update_count : Int
deriving DecidableEq

/-- `TrackedPost` from `models.py`: the tracking record for a post. -/
structure TrackedPost where
  post_id : String
  subreddit : String
  created_utc : Int
  first_scraped : Int
  last_updated : Int
  update_count : Int
  status : PostStatus
  contextual_doc_id : Option String
  content_hash : String
deriving DecidableEq

/-- A row of the `scrape_queue` table (`db/supabase.py` schema). -/
structure QueueEntry where
  id : Nat
  post_id : String
  subreddit : String
  action : String
  priority : Int
  attempts : Nat
  max_attempts : Nat
  last_error : Option String
  created_at : Int
  scheduled_for : Int
deriving DecidableEq

/-! ## Stable sorting

Python's `sorted` and SQL `ORDER BY` are modelled by a stable insertion
sort parameterised by a strict "comes before" test: each element is inserted
after all previously placed elements that do not come strictly after it,
which reproduces the stability of Python's `sorted`. -/

/-- Insert `x` into `l`, placing it before the first element `y` with
`lt x y`. -/
def insertBy {α : Type} (lt : α → α → Bool) (x : α) : List α → List α
  | [] => [x]
  | y :: ys => if lt x y then x :: y :: ys else y :: insertBy lt x ys

/-- Stable insertion sort by the strict comparison `lt`. -/
def sortBy {α : Type} (lt : α → α → Bool) (l : List α) : List α :=
  l.foldl (fun acc x => insertBy lt x acc) []

theorem mem_insertBy {α : Type} (lt : α → α → Bool) (x a : α) :
    ∀ l : List α, a ∈ insertBy lt x l ↔ a = x ∨ a ∈ l := by
  intro l
  induction l with
  | nil => simp [insertBy]
  | cons y ys ih =>
      simp only [insertBy]
      split
      · simp only [List.mem_cons]
      · simp only [List.mem_cons, ih]
        tauto

theorem mem_foldl_insertBy {α : Type} (lt : α → α → Bool) (a : α) :
    ∀ (l acc : List α),
      a ∈ l.foldl (fun acc x => insertBy lt x acc) acc ↔ a ∈ acc ∨ a ∈ l := by
  intro l
  induction l with
  | nil => simp
  | cons x xs ih =>
      intro acc
      simp only [List.foldl_cons, ih, mem_insertBy, List.mem_cons]
      tauto

theorem mem_sortBy {α : Type} (lt : α → α → Bool) (a : α) (l : List α) :
    a ∈ sortBy lt l ↔ a ∈ l := by
  simp [sortBy, mem_foldl_insertBy]

/-! ## Content change detector (`db/base.py`, `compute_content_hash`)

The source computes

```
sorted_comments = sorted(post.comments, key=lambda c: c.id)
comment_data = [{"id": c.id,
                 "body_hash": hashlib.md5(c.body[:500].encode()).hexdigest()[:8]}
                for c in sorted_comments]
content = json.dumps({"title": post.title,
                      "selftext": post.selftext[:2000] if post.selftext else "",
                      "comments": comment_data}, sort_keys=True)
return hashlib.sha256(content.encode()).hexdigest()[:16]
```

The canonical structure fed to the digests is modelled exactly
(`HashContent`); the two digest pipelines — the per-comment
`md5 … hexdigest()[:8]` and the final `json.dumps` + `sha256 … [:16]` —
are abstracted as the function parameters `md5h` and `shah`. -/

/-- The canonical structure whose JSON serialisation is hashed by
`compute_content_hash`. -/
structure HashContent where
  title : String
  selftext : String
  comments : List (String × String)
deriving DecidableEq

/-- `sorted(post.comments, key=lambda c: c.id)`. -/
def sortComments (cs : List RedditComment) : List RedditComment :=
  sortBy (fun a b => a.id < b.id) cs

/-- The `comment_data` list: for each comment (sorted by id), its id paired
with the digest of the first 500 characters of its body. -/
def commentData (md5h : String → String) (cs : List RedditComment) :
    List (String × String) :=
  (sortComments cs).map (fun c => (c.id, md5h (c.body.take 500)))

/-- The canonical content dictionary built by `compute_content_hash`:
title, first 2000 characters of the body (`""` when the body is falsy),
and the sorted comment data. -/
def hashContent (md5h : String → String) (p : RedditPost) : HashContent :=
  { title := p.title
    selftext := if p.selftext = "" then "" else p.selftext.take 2000
    comments := commentData md5h p.comments }

/-- `compute_content_hash` from `db/base.py`: the final digest applied to the
canonical content. -/
def compute_content_hash (md5h : String → String) (shah : HashContent → String)
    (p : RedditPost) : String :=
  shah (hashContent md5h p)

/-- The body text as it enters the fingerprint: truncated to 2000 characters. -/
def selftextKey (p : RedditPost) : String :=
  if p.selftext = "" then "" else p.selftext.take 2000

/-- The comment data as it enters the fingerprint, before any digest:
ids paired with bodies truncated to 500 characters, sorted by id. -/
def commentKeys (p : RedditPost) : List (String × String) :=
  (sortComments p.comments).map (fun c => (c.id, c.body.take 500))

theorem hashContent_comments_eq (md5h : String → String) (p : RedditPost) :
    (hashContent md5h p).comments
      = (commentKeys p).map (fun x => (x.1, md5h x.2)) := by
  simp [hashContent, commentData, commentKeys, List.map_map]

/-! ### Injective digests for concrete witnesses

`compute_content_hash`'s real digests are collision-prone truncated hashes;
the claims about fingerprint *difference* only hold for collision-free
digests.  For concrete witnesses we build an explicitly injective digest
`HashContent → String` from a pairing-based numeric encoding. -/

def natOfChar (c : Char) : Nat := c.toNat

theorem natOfChar_injective : Function.Injective natOfChar := by
  intro a b h
  exact Char.ext (UInt32.ext h)

/-- Injective encoding of a list given an injective element encoding. -/
def natOfList {α : Type} (f : α → Nat) : List α → Nat
  | [] => 0
  | x :: xs => Nat.pair (f x) (natOfList f xs) + 1

theorem natOfList_injective {α : Type} (f : α → Nat)
    (hf : Function.Injective f) : Function.Injective (natOfList f) := by
  intro a
  induction a with
  | nil =>
      intro b h
      cases b with
      | nil => rfl
      | cons y ys => simp [natOfList] at h
  | cons x xs ih =>
      intro b h
      cases b with
      | nil => simp [natOfList] at h
      | cons y ys =>
          simp only [natOfList, Nat.add_right_cancel_iff, Nat.pair_eq_pair] at h
          obtain ⟨h1, h2⟩ := h
          rw [hf h1]
          rw [ih h2]

def natOfString (s : String) : Nat := natOfList natOfChar s.data

theorem natOfString_injective : Function.Injective natOfString := by
  intro a b h
  exact String.ext (natOfList_injective natOfChar natOfChar_injective h)

def natOfStringPair (x : String × String) : Nat :=
  Nat.pair (natOfString x.1) (natOfString x.2)

theorem natOfStringPair_injective : Function.Injective natOfStringPair := by
  intro ⟨a1, a2⟩ ⟨b1, b2⟩ h
  simp only [natOfStringPair, Nat.pair_eq_pair] at h
  obtain ⟨h1, h2⟩ := h
  rw [Prod.mk.injEq]
  exact ⟨natOfString_injective h1, natOfString_injective h2⟩

def natOfHashContent (hc : HashContent) : Nat :=
  Nat.pair (natOfString hc.title)
    (Nat.pair (natOfString hc.selftext) (natOfList natOfStringPair hc.comments))

theorem natOfHashContent_injective : Function.Injective natOfHashContent := by
  intro ⟨t1, s1, c1⟩ ⟨t2, s2, c2⟩ h
  simp only [natOfHashContent, Nat.pair_eq_pair] at h
  obtain ⟨h1, h2, h3⟩ := h
  simp only [HashContent.mk.injEq]
  exact ⟨natOfString_injective h1, natOfString_injective h2,
    natOfList_injective natOfStringPair natOfStringPair_injective h3⟩

def strOfNat (n : Nat) : String := String.mk (List.replicate n 'a')

theorem strOfNat_injective : Function.Injective strOfNat := by
  intro a b h
  have hrep : List.replicate a 'a' = List.replicate b 'a' := by
    injection h
  have := congrArg List.length hrep
  simpa using this

/-- A concretely injective stand-in digest `HashContent → String`. -/
def encodeHashContent : HashContent → String :=
  fun hc => strOfNat (natOfHashContent hc)

theorem encodeHashContent_injective : Function.Injective encodeHashContent :=
  Function.Injective.comp strOfNat_injective natOfHashContent_injective

/-! ### Claim C1 -/

/-- C1, amended theorem.  For collision-free digests, the fingerprint
computed by `compute_content_hash` coincides on two posts iff they agree on
the title, on the **first 2000 characters** of the body text, and on the
sorted list of comment ids paired with the **first 500 characters** of each
comment body.  In particular volatile fields (score, comment count, upvote
ratio) never influence the fingerprint, and any change to the title, the
truncated body, the comment-id set or a truncated comment body changes it.
(The original claim, which promised a change for *any* body change, fails on
edits beyond the truncation boundaries — see `C1_counterexample`.) -/
theorem C1_content_hash_iff (md5h : String → String) (shah : HashContent → String)
    (hmd5 : Function.Injective md5h) (hshah : Function.Injective shah)
    (p q : RedditPost) :
    compute_content_hash md5h shah p = compute_content_hash md5h shah q ↔
      (p.title = q.title ∧ selftextKey p = selftextKey q ∧
        commentKeys p = commentKeys q) := by
  unfold compute_content_hash
  constructor
  · intro h
    have hc : hashContent md5h p = hashContent md5h q := hshah h
    refine ⟨?_, ?_, ?_⟩
    · have := congrArg HashContent.title hc
      simpa [hashContent] using this
    · have := congrArg HashContent.selftext hc
      simpa [hashContent, selftextKey] using this
    · have hcm := congrArg HashContent.comments hc
      rw [hashContent_comments_eq, hashContent_comments_eq] at hcm
      have hinj : Function.Injective
          (fun x : String × String => (x.1, md5h x.2)) := by
        intro ⟨a1, a2⟩ ⟨b1, b2⟩ hx
        simp only [Prod.mk.injEq] at hx
        exact Prod.ext hx.1 (hmd5 hx.2)
      exact List.map_injective_iff.mpr hinj hcm
  · intro ⟨h1, h2, h3⟩
    unfold hashContent
    rw [show (if p.selftext = "" then "" else p.selftext.take 2000)
          = selftextKey p from rfl,
        show (if q.selftext = "" then "" else q.selftext.take 2000)
          = selftextKey q from rfl]
    have hcm : commentData md5h p.comments = commentData md5h q.comments := by
      have hp := hashContent_comments_eq md5h p
      have hq := hashContent_comments_eq md5h q
      simp only [hashContent] at hp hq
      rw [hp, hq, h3]
    rw [h1, h2, hcm]

/-- A post skeleton used by the concrete C1 inputs. -/
def basePost : RedditPost :=
  { id := "p1", subreddit := "s", author := "u", title := "t", selftext := ""
    score := 0, upvote_ratio := 0, num_comments := 1, created_utc := 0
    comments := [], scraped_at := 0, last_updated := 0, update_count := 0 }

def baseComment : RedditComment :=
  { id := "c1", author := "u", body := "", score := 0, created_utc := 0
    parent_id := "p1", is_submitter := false, depth := 0 }

/-- A 501-character comment body: 501 copies of `a`. -/
def cxBody1 : String := String.mk (List.replicate 501 'a')

/-- A 501-character comment body differing from `cxBody1` only in its final
(501st) character. -/
def cxBody2 : String := String.mk (List.replicate 500 'a' ++ ['b'])

def cxPost1 : RedditPost := { basePost with comments := [{ baseComment with body := cxBody1 }] }

def cxPost2 : RedditPost := { basePost with comments := [{ baseComment with body := cxBody2 }] }

theorem cxBody_take_eq : cxBody1.take 500 = cxBody2.take 500 := by
  apply String.ext
  simp only [String.data_take, cxBody1, cxBody2]
  rw [List.take_replicate, List.take_left' (by simp)]
  norm_num

theorem cxBody_ne : cxBody1 ≠ cxBody2 := by
  intro h
  have hd : List.replicate 501 'a' = List.replicate 500 'a' ++ ['b'] := by
    injection h
  have hdrop := congrArg (List.drop 500) hd
  rw [List.drop_replicate, List.drop_left' (by simp)] at hdrop
  norm_num at hdrop
  exact absurd hdrop (by decide)

/-- C1 counterexample.  The two posts differ in the body of their (only)
comment — at the 501st character — yet the canonical content entering the
digest pipeline is identical, so `compute_content_hash` agrees on them for
every digest; the claimed "any change to … the body of some comment changes
the fingerprint" is false. -/
theorem C1_counterexample :
    cxPost1.comments.map RedditComment.body ≠ cxPost2.comments.map RedditComment.body
    ∧ hashContent (fun s => s) cxPost1 = hashContent (fun s => s) cxPost2
    ∧ compute_content_hash (fun s => s) encodeHashContent cxPost1
        = compute_content_hash (fun s => s) encodeHashContent cxPost2 := by
  have hkey : commentData (fun s => s) cxPost1.comments
      = commentData (fun s => s) cxPost2.comments := by
    unfold commentData sortComments sortBy cxPost1 cxPost2
    simp only [List.foldl_cons, List.foldl_nil, insertBy, List.map_cons, List.map_nil]
    rw [cxBody_take_eq]
  have hhc : hashContent (fun s => s) cxPost1 = hashContent (fun s => s) cxPost2 := by
    unfold hashContent
    rw [hkey]
    rfl
  refine ⟨?_, hhc, congrArg encodeHashContent hhc⟩
  intro h
  simp only [cxPost1, cxPost2, List.map_cons, List.map_nil, List.cons.injEq] at h
  exact cxBody_ne h.1

def volPost1 : RedditPost :=
  { basePost with score := 1, num_comments := 5, upvote_ratio := 90, comments := [baseComment] }

def volPost2 : RedditPost :=
  { basePost with score := 42, num_comments := 7, upvote_ratio := 10, comments := [baseComment] }

/-- C1 witness: the amended iff applied to two concrete posts that differ
only in the volatile fields (score, comment count, upvote ratio), showing
their fingerprints coincide. -/
theorem C1_witness :
    compute_content_hash (fun s => s) encodeHashContent volPost1
      = compute_content_hash (fun s => s) encodeHashContent volPost2 :=
  (C1_content_hash_iff (fun s => s) encodeHashContent (fun _ _ h => h)
    encodeHashContent_injective volPost1 volPost2).mpr ⟨rfl, rfl, rfl⟩

/-! ## Persistent store state and operations (`db/supabase.py`)

The four tables of the schema (`tracked_posts`, `posts`, `comments`,
`scrape_queue`) are modelled as lists of rows; `nextQueueId` models the
`SERIAL` primary key of the queue.  Each store operation is the direct
translation of the corresponding SQL statement. -/

structure DB where
  tracked : List TrackedPost
  posts : List RedditPost
  comments : List (String × RedditComment)
  queue : List QueueEntry
  nextQueueId : Nat
deriving DecidableEq

/-- `get_tracked_post`. -/
def get_tracked_post (db : DB) (pid : String) : Option TrackedPost :=
  db.tracked.find? (fun t => t.post_id == pid)

/-- `upsert_tracked_post`: `INSERT … ON CONFLICT(post_id) DO UPDATE` — on
conflict only `last_updated`, `update_count`, `status`, `contextual_doc_id`
(`COALESCE` with the stored value) and `content_hash` are updated; the
other columns keep their stored values. -/
def upsertRow (t r : TrackedPost) : TrackedPost :=
  if r.post_id == t.post_id then
    { r with last_updated := t.last_updated, update_count := t.update_count,
             status := t.status,
             contextual_doc_id := match t.contextual_doc_id with
               | some d => some d
               | none => r.contextual_doc_id,
             content_hash := t.content_hash }
  else r

def upsert_tracked_post (db : DB) (t : TrackedPost) : DB :=
  if db.tracked.any (fun r => r.post_id == t.post_id) then
    { db with tracked := db.tracked.map (upsertRow t) }
  else { db with tracked := db.tracked ++ [t] }

/-- The columns of the `posts` row written by `save_post`; the comment list
lives in the separate `comments` table. -/
def postRow (p : RedditPost) : RedditPost := { p with comments := [] }

/-- `save_post`: upsert the post row (on conflict only `score`,
`upvote_ratio`, `num_comments`, `last_updated`, `update_count` are updated),
then replace the post's comments wholesale (delete-then-insert). -/
def save_post (db : DB) (p : RedditPost) : DB :=
  let posts1 :=
    if db.posts.any (fun r => r.id == p.id) then
      db.posts.map (fun r =>
        if r.id == p.id then
          { r with score := p.score, upvote_ratio := p.upvote_ratio,
                   num_comments := p.num_comments, last_updated := p.last_updated,
                   update_count := p.update_count }
        else r)
    else db.posts ++ [postRow p]
  { db with posts := posts1,
            comments := db.comments.filter (fun c => !(c.1 == p.id))
              ++ p.comments.map (fun c => (p.id, c)) }

/-- `get_post`: rejoin the post row with its comments, ordered by score
descending. -/
def get_post (db : DB) (pid : String) : Option RedditPost :=
  (db.posts.find? (fun r => r.id == pid)).map (fun row =>
    let cs := sortBy (fun a b => decide (b.score < a.score))
      ((db.comments.filter (fun c => c.1 == pid)).map (fun c => c.2))
    { row with comments := cs })

/-- `get_posts_to_update`: non-frozen posts with
`update_count < freeze_at_count`, ordered by `update_count` ascending then
`first_scraped` ascending. -/
def get_posts_to_update (db : DB) (freeze_at : Int) : List TrackedPost :=
  sortBy (fun a b => decide (a.update_count < b.update_count)
      || (a.update_count == b.update_count && decide (a.first_scraped < b.first_scraped)))
    (db.tracked.filter (fun t =>
      !(t.status == .frozen) && decide (t.update_count < freeze_at)))

/-- `get_posts_to_freeze`: non-frozen posts with
`update_count >= freeze_at_count` (no ordering clause). -/
def get_posts_to_freeze (db : DB) (freeze_at : Int) : List TrackedPost :=
  db.tracked.filter (fun t =>
    !(t.status == .frozen) && decide (freeze_at ≤ t.update_count))

/-- `add_to_queue`: `INSERT … ON CONFLICT (post_id, action) DO UPDATE SET
priority = GREATEST(stored, new)`.  A fresh row gets `attempts = 0`,
`max_attempts = 5` and `created_at = scheduled_for = NOW()`. -/
def freshEntry (qid : Nat) (pid sub act : String) (priority : Int) (now : Int) : QueueEntry :=
  { id := qid
    post_id := pid
    subreddit := sub
    action := act
    priority := priority
    attempts := 0
    max_attempts := 5
    last_error := none
    created_at := now
    scheduled_for := now }

def add_to_queue (now : Int) (db : DB) (pid sub act : String) (priority : Int) : DB :=
  if db.queue.any (fun q => q.post_id == pid && q.action == act) then
    { db with queue := db.queue.map (fun q =>
        if q.post_id == pid && q.action == act then
          { q with priority := max q.priority priority }
        else q) }
  else
    { db with queue := db.queue ++ [freshEntry db.nextQueueId pid sub act priority now]
              nextQueueId := db.nextQueueId + 1 }

/-- `get_queue_items`: eligible entries (`attempts < max_attempts` and
`scheduled_for <= NOW()`), ordered by `priority` descending then
`created_at` ascending, bounded by `limit`. -/
def get_queue_items (now : Int) (db : DB) (limit : Nat) : List QueueEntry :=
  (sortBy (fun a b => decide (b.priority < a.priority)
      || (a.priority == b.priority && decide (a.created_at < b.created_at)))
    (db.queue.filter (fun q =>
      decide (q.attempts < q.max_attempts) && decide (q.scheduled_for ≤ now)))).take limit

/-- `mark_queue_success`: delete the queue row. -/
def mark_queue_success (db : DB) (qid : Nat) : DB :=
  { db with queue := db.queue.filter (fun q => !(q.id == qid)) }

/-- `mark_queue_failure`: read the row's current `attempts`, then increment
`attempts`, record the error, and schedule the next retry at
`now + 5 * 2^attempts` minutes (`300 * 2^attempts` seconds). -/
def mark_queue_failure (now : Int) (db : DB) (qid : Nat) (err : String) : DB :=
  let prior := match db.queue.find? (fun q => q.id == qid) with
    | some q => q.attempts
    | none => 0
  let next := now + 300 * 2 ^ prior
  { db with queue := db.queue.map (fun q =>
      if q.id == qid then
        { q with attempts := q.attempts + 1, last_error := some err,
                 scheduled_for := next }
      else q) }

/-- `get_posts_with_missing_hash`: non-frozen posts with an empty
fingerprint. -/
def get_posts_with_missing_hash (db : DB) : List TrackedPost :=
  db.tracked.filter (fun t => t.content_hash == "" && !(t.status == .frozen))

/-- `delete_post`: delete the post's comments, its cached row and its
tracking record; returns whether a tracking record was removed. -/
def delete_post (db : DB) (pid : String) : DB × Bool :=
  ({ db with comments := db.comments.filter (fun c => !(c.1 == pid)),
             posts := db.posts.filter (fun p => !(p.id == pid)),
             tracked := db.tracked.filter (fun t => !(t.post_id == pid)) },
   db.tracked.any (fun t => t.post_id == pid))

/-- `cleanup_old_posts`: when some tracking record is older than the
cutoff, delete the comments and tracking records of those old posts, then
delete every cached post row whose id is no longer tracked; returns the
count of removed tracking records. -/
def cleanup_old_posts (now : Int) (db : DB) (days : Int) : DB × Nat :=
  let cutoff := now - days * 86400
  let old := db.tracked.filter (fun t => decide (t.first_scraped < cutoff))
  let oldIds := old.map (fun t => t.post_id)
  if old.length > 0 then
    let tracked1 := db.tracked.filter (fun t => !(decide (t.first_scraped < cutoff)))
    let keep := tracked1.map (fun t => t.post_id)
    ({ db with comments := db.comments.filter (fun c => !(oldIds.contains c.1)),
               tracked := tracked1,
               posts := db.posts.filter (fun p => keep.contains p.id) },
     old.length)
  else (db, 0)

/-! ## External collaborators, statistics and traces (`pipeline.py`)

Remote calls are modelled by an environment of deterministic response
functions; each pipeline operation threads a state consisting of the
database, the run statistics and a trace of the remote calls and store
writes it performs (store reads are not traced). -/

/-- Outcome of `scraper.refresh_post`: a raised exception, `None` (the post
was deleted or is unavailable upstream), or the refreshed post. -/
inductive FetchResult
  | fetchFailed (msg : String)
  | gone
  | found (p : RedditPost)

/-- The environment of external collaborators: clock, timezone projection
for the daily guard (`_to_pacific_date`), the two abstract digests of the
content detector, the scraper and the document store.  `setMetadataOk`
returns a boolean because `ContextualClient.set_metadata` catches its own
exceptions; `deleteDocOk` appears only for completeness — every caller of
the document deletion discards its outcome. -/
structure Env where
  now : Int
  pacificDate : Int → Int
  md5h : String → String
  shah : HashContent → String
  refreshPost : String → FetchResult
  scraped : List RedditPost
  ingestDoc : RedditPost → Except String String
  setMetadataOk : String → RedditPost → Bool
  deleteDocOk : String → Except String Bool

/-- `PipelineStats` (the counters consumed by the sync core). -/
structure Stats where
  posts_scraped : Nat := 0
  new_posts : Nat := 0
  updated_posts : Nat := 0
  frozen_posts : Nat := 0
  posts_deleted : Nat := 0
  documents_ingested : Nat := 0
  documents_reingested : Nat := 0
  skipped_unchanged : Nat := 0
  sync_errors : Nat := 0
  queued_for_retry : Nat := 0
deriving DecidableEq

/-- One remote call or persistent-store write performed by the pipeline. -/
inductive Call
  | fetchPost (pid : String)
  | docIngest (p : RedditPost)
  | docSetMetadata (doc : String) (p : RedditPost)
  | docDelete (doc : String)
  | dbUpsertTracked (t : TrackedPost)
  | dbSavePost (p : RedditPost)
  | dbAddQueue (pid sub act : String) (priority : Int)
  | dbMarkSuccess (qid : Nat)
  | dbMarkFailure (qid : Nat) (err : String)
  | dbDeletePost (pid : String)
  | dbCleanup (days : Int)
deriving DecidableEq

/-- Whether a call goes to an external collaborator (the source fetcher or
the document store) rather than to the persistent store. -/
def Call.isRemote : Call → Bool
  | .fetchPost _ => true
  | .docIngest _ => true
  | .docSetMetadata _ _ => true
  | .docDelete _ => true
  | _ => false

/-- Pipeline state: the persistent store, the run statistics and the trace
of calls performed so far. -/
structure St where
  db : DB
  stats : Stats
  trace : List Call
deriving DecidableEq

def St.ofDB (db : DB) : St := { db := db, stats := {}, trace := [] }

def St.upsertTracked (s : St) (t : TrackedPost) : St :=
  { s with db := upsert_tracked_post s.db t, trace := s.trace ++ [.dbUpsertTracked t] }

def St.savePost (s : St) (p : RedditPost) : St :=
  { s with db := save_post s.db p, trace := s.trace ++ [.dbSavePost p] }

def St.addQueue (env : Env) (s : St) (pid sub act : String) (priority : Int) : St :=
  { s with db := add_to_queue env.now s.db pid sub act priority,
           trace := s.trace ++ [.dbAddQueue pid sub act priority] }

def St.markSuccess (s : St) (qid : Nat) : St :=
  { s with db := mark_queue_success s.db qid, trace := s.trace ++ [.dbMarkSuccess qid] }

def St.markFailure (env : Env) (s : St) (qid : Nat) (err : String) : St :=
  { s with db := mark_queue_failure env.now s.db qid err,
           trace := s.trace ++ [.dbMarkFailure qid err] }

def St.deletePost (s : St) (pid : String) : St :=
  { s with db := (delete_post s.db pid).1, trace := s.trace ++ [.dbDeletePost pid] }

def St.call (s : St) (c : Call) : St := { s with trace := s.trace ++ [c] }

def St.bump (s : St) (f : Stats → Stats) : St := { s with stats := f s.stats }

/-- The configuration surface consumed by the sync core (`ScraperConfig`
in `config.py`). -/
structure Config where
  refresh_at_count : Int
  freeze_at_count : Int
  always_reingest_on_refresh : Bool
  update_window_days : Int
  cleanup_after_days : Int

/-! ## Pipeline operations (`pipeline.py`) -/

/-- Python truthiness of `tracked.contextual_doc_id`: a non-null, non-empty
string. -/
def docIdTruthy : Option String → Bool
  | some d => !(d == "")
  | none => false

/-- `Pipeline._handle_deleted_post`: if a document id is recorded (truthy),
attempt the remote deletion — both a `False` result and a raised exception
are swallowed by the surrounding try/except — then delete the post, its
comments and its tracking record from the database and count the deletion. -/
def handle_deleted_post (s : St) (t : TrackedPost) : St :=
  let s1 := if docIdTruthy t.contextual_doc_id
    then s.call (.docDelete (t.contextual_doc_id.getD ""))
    else s
  (s1.deletePost t.post_id).bump
    (fun st => { st with posts_deleted := st.posts_deleted + 1 })

/-- `ContextualClient.smart_sync`: no existing document → ingest; existing
document and changed content → `update_document` (best-effort delete of the
old document, then ingest); otherwise no remote action. -/
def smart_sync (env : Env) (s : St) (p : RedditPost) (existing : Option String)
    (contentChanged : Bool) : St × Except String String :=
  match existing with
  | none => (s.call (.docIngest p), env.ingestDoc p)
  | some d =>
      if contentChanged then
        ((s.call (.docDelete d)).call (.docIngest p), env.ingestDoc p)
      else (s, .ok d)

/-- `Pipeline._update_post`: the per-item update cycle.  Returns the state
and the boolean result of the source method.  Scraper and document-store
failures are caught inside the method, exactly as in the source. -/
def update_post (cfg : Config) (env : Env) (s : St) (t : TrackedPost) : St × Bool :=
  if env.pacificDate t.last_updated = env.pacificDate env.now then (s, true)
  else if t.update_count < cfg.refresh_at_count then
    let t1 := { t with update_count := t.update_count + 1, last_updated := env.now }
    ((s.upsertTracked t1).bump
       (fun st => { st with skipped_unchanged := st.skipped_unchanged + 1 }), true)
  else
    let s0 := s.call (.fetchPost t.post_id)
    match env.refreshPost t.post_id with
    | .fetchFailed _ =>
        ((s0.addQueue env t.post_id t.subreddit "update" 0).bump
           (fun st => { st with queued_for_retry := st.queued_for_retry + 1 }), false)
    | .gone => (handle_deleted_post s0 t, true)
    | .found post =>
        let newHash := compute_content_hash env.md5h env.shah post
        let contentChanged := !(newHash == t.content_hash)
        if cfg.always_reingest_on_refresh || contentChanged then
          let post1 := { post with update_count := t.update_count + 1 }
          let s1 := s0.savePost post1
          match smart_sync env s1 post1 t.contextual_doc_id true with
          | (s2, .ok _) =>
              let t1 := { t with last_updated := env.now,
                                 update_count := t.update_count + 1,
                                 status := .updating, content_hash := newHash }
              ((s2.upsertTracked t1).bump (fun st =>
                 { st with updated_posts := st.updated_posts + 1,
                           documents_reingested := st.documents_reingested + 1 }), true)
          | (s2, .error _) =>
              ((s2.addQueue env t.post_id t.subreddit "update" 0).bump (fun st =>
                 { st with sync_errors := st.sync_errors + 1,
                           queued_for_retry := st.queued_for_retry + 1 }), false)
        else
          let metadataChanged := match get_post s0.db t.post_id with
            | some oldPost => !(oldPost.score == post.score)
                || !(oldPost.num_comments == post.num_comments)
                || !(oldPost.upvote_ratio == post.upvote_ratio)
            | none => false
          if metadataChanged && docIdTruthy t.contextual_doc_id then
            let d := t.contextual_doc_id.getD ""
            let s1 := s0.call (.docSetMetadata d post)
            if env.setMetadataOk d post then
              let post1 := { post with update_count := t.update_count + 1 }
              let s2 := s1.savePost post1
              let t1 := { t with update_count := t.update_count + 1,
                                 last_updated := env.now }
              ((s2.upsertTracked t1).bump
                 (fun st => { st with updated_posts := st.updated_posts + 1 }), true)
            else
              let t1 := { t with update_count := t.update_count + 1,
                                 last_updated := env.now }
              ((s1.upsertTracked t1).bump
                 (fun st => { st with skipped_unchanged := st.skipped_unchanged + 1 }), true)
          else
            let t1 := { t with update_count := t.update_count + 1,
                               last_updated := env.now }
            ((s0.upsertTracked t1).bump
               (fun st => { st with skipped_unchanged := st.skipped_unchanged + 1 }), true)

/-- `Pipeline._process_new_post`: skip already-tracked posts; otherwise save
the post locally, ingest it, and create the tracking record with
`update_count = -1`, or enqueue an `ingest` retry on failure. -/
def process_new_post (env : Env) (s : St) (post : RedditPost) : St × Option String :=
  match get_tracked_post s.db post.id with
  | some existing => (s, existing.contextual_doc_id)
  | none =>
      let s1 := (s.savePost post).call (.docIngest post)
      match env.ingestDoc post with
      | .ok docId =>
          let t : TrackedPost :=
            { post_id := post.id, subreddit := post.subreddit,
              created_utc := post.created_utc, first_scraped := env.now,
              last_updated := env.now, update_count := -1, status := .new,
              contextual_doc_id := some docId,
              content_hash := compute_content_hash env.md5h env.shah post }
          ((s1.upsertTracked t).bump (fun st =>
             { st with new_posts := st.new_posts + 1,
                       documents_ingested := st.documents_ingested + 1 }), some docId)
      | .error _ =>
          ((s1.addQueue env post.id post.subreddit "ingest" 1).bump (fun st =>
             { st with sync_errors := st.sync_errors + 1,
                       queued_for_retry := st.queued_for_retry + 1 }), none)

/-- `Pipeline._freeze_post`. -/
def freeze_post (env : Env) (s : St) (t : TrackedPost) : St :=
  (s.upsertTracked { t with status := .frozen, last_updated := env.now }).bump
    (fun st => { st with frozen_posts := st.frozen_posts + 1 })

/-- One iteration of `Pipeline._process_queue`'s loop.  The per-item
try/except catches the only modelled exception source — a failed document
ingestion — and applies `mark_queue_failure`; every other outcome, including
an `_update_post` call that returns `False`, ends in `mark_queue_success`. -/
def process_queue_item (cfg : Config) (env : Env) (s : St) (q : QueueEntry) : St :=
  if q.action == "ingest" then
    match get_post s.db q.post_id with
    | some post =>
        let s1 := s.call (.docIngest post)
        match env.ingestDoc post with
        | .ok docId =>
            let s2 := match get_tracked_post s1.db q.post_id with
              | some tr => s1.upsertTracked { tr with contextual_doc_id := some docId }
              | none => s1
            (s2.bump (fun st =>
               { st with documents_ingested := st.documents_ingested + 1 })).markSuccess q.id
        | .error e => s1.markFailure env q.id e
    | none => s.markSuccess q.id
  else if q.action == "update" then
    match get_tracked_post s.db q.post_id with
    | some tr => ((update_post cfg env s tr).1).markSuccess q.id
    | none => s.markSuccess q.id
  else s.markSuccess q.id

/-- `Pipeline._process_queue`: fetch one batch of eligible entries and
process them in order. -/
def process_queue (cfg : Config) (env : Env) (s : St) : St :=
  (get_queue_items env.now s.db 50).foldl (process_queue_item cfg env) s

/-- `post.should_update(update_window_days)`: the post's age is at most
the window (`age_days <= update_window_days`, stated in seconds). -/
def should_update (now : Int) (days : Int) (p : RedditPost) : Bool :=
  decide (now - p.created_utc ≤ days * 86400)

/-- `Pipeline.scrape_and_process_new`: record the scraped count and process
every scraped post that is still inside the update window. -/
def scrape_and_process_new (cfg : Config) (env : Env) (s : St) : St :=
  let s0 := s.bump (fun st => { st with posts_scraped := env.scraped.length })
  env.scraped.foldl (fun acc post =>
    if should_update env.now cfg.update_window_days post
      then (process_new_post env acc post).1 else acc) s0

/-- `Pipeline.update_existing_posts`: the update phase over the snapshot
returned by `get_posts_to_update`. -/
def update_existing_posts (cfg : Config) (env : Env) (s : St) : St :=
  (get_posts_to_update s.db cfg.freeze_at_count).foldl
    (fun acc t => (update_post cfg env acc t).1) s

/-- `Pipeline.freeze_old_posts`: the freeze sweep over the snapshot
returned by `get_posts_to_freeze`. -/
def freeze_old_posts (cfg : Config) (env : Env) (s : St) : St :=
  (get_posts_to_freeze s.db cfg.freeze_at_count).foldl (freeze_post env) s

/-- One iteration of `Pipeline.fix_missing_hashes`'s loop; the per-item
try/except catches scraper and store failures, so every outcome continues
the phase. -/
def fix_missing_hash_item (env : Env) (s : St) (t : TrackedPost) : St :=
  let s0 := s.call (.fetchPost t.post_id)
  match env.refreshPost t.post_id with
  | .fetchFailed _ => s0
  | .gone => handle_deleted_post s0 t
  | .found post =>
      let newHash := compute_content_hash env.md5h env.shah post
      let s1 := s0.savePost post
      match smart_sync env s1 post t.contextual_doc_id true with
      | (s2, .ok _) =>
          (s2.upsertTracked { t with content_hash := newHash, last_updated := env.now }).bump
            (fun st => { st with documents_reingested := st.documents_reingested + 1 })
      | (s2, .error _) => s2

/-- `Pipeline.fix_missing_hashes`. -/
def fix_missing_hashes (env : Env) (s : St) : St :=
  (get_posts_with_missing_hash s.db).foldl (fix_missing_hash_item env) s

/-- `Pipeline.cleanup`. -/
def cleanup (cfg : Config) (env : Env) (s : St) : St :=
  if cfg.cleanup_after_days ≤ 0 then s
  else
    { s with db := (cleanup_old_posts env.now s.db cfg.cleanup_after_days).1,
             trace := s.trace ++ [.dbCleanup cfg.cleanup_after_days] }

/-- `Pipeline.run`: the ordered phases of one invocation on fresh run
statistics — drain queue, repair missing fingerprints, scrape and register
new posts, advance tracked posts, freeze, drain queue again, cleanup. -/
def run_pipeline (cfg : Config) (env : Env) (db : DB) : St :=
  cleanup cfg env
    (process_queue cfg env
      (freeze_old_posts cfg env
        (update_existing_posts cfg env
          (scrape_and_process_new cfg env
            (fix_missing_hashes env
              (process_queue cfg env (St.ofDB db)))))))

/-- The pipeline's phase operations, for stating per-operation invariants. -/
inductive PipelineOp
  | queueOp
  | fixHashesOp
  | scrapeOp
  | updateOp
  | freezeOp
  | cleanupOp
deriving DecidableEq

/-- Apply one pipeline phase to a state. -/
def applyOp (cfg : Config) (env : Env) (op : PipelineOp) (s : St) : St :=
  match op with
  | .queueOp => process_queue cfg env s
  | .fixHashesOp => fix_missing_hashes env s
  | .scrapeOp => scrape_and_process_new cfg env s
  | .updateOp => update_existing_posts cfg env s
  | .freezeOp => freeze_old_posts cfg env s
  | .cleanupOp => cleanup cfg env s

/-- The status of the tracking record for `pid`, if tracked. -/
def statusOf (db : DB) (pid : String) : Option PostStatus :=
  (get_tracked_post db pid).map (fun t => t.status)

/-! ## List helper lemmas -/

theorem find?_map_congr {α : Type} (f : α → α) (p : α → Bool)
    (h1 : ∀ x, p (f x) = p x) (h2 : ∀ x, p x = true → f x = x) :
    ∀ l : List α, (l.map f).find? p = l.find? p := by
  intro l
  induction l with
  | nil => rfl
  | cons x xs ih =>
      by_cases hx : p x = true
      · simp only [List.map_cons, List.find?_cons, h1, hx, h2 x hx]
      · have hx2 : p x = false := by
          cases hpx : p x
          · rfl
          · exact absurd hpx hx
        simp only [List.map_cons, List.find?_cons, h1, hx2, ih]

theorem find?_map_found {α : Type} (f : α → α) (p : α → Bool)
    (h1 : ∀ x, p (f x) = p x) :
    ∀ l : List α, (l.map f).find? p = (l.find? p).map f := by
  intro l
  induction l with
  | nil => rfl
  | cons x xs ih =>
      by_cases hx : p x = true
      · simp only [List.map_cons, List.find?_cons, h1, hx, Option.map_some']
      · have hx2 : p x = false := by
          cases hpx : p x
          · rfl
          · exact absurd hpx hx
        simp only [List.map_cons, List.find?_cons, h1, hx2, ih]

theorem filter_map_key {α : Type} (f : α → α) (key : α → Bool)
    (h : ∀ x, key (f x) = key x) :
    ∀ l : List α, (l.map f).filter key = (l.filter key).map f := by
  intro l
  induction l with
  | nil => rfl
  | cons x xs ih =>
      by_cases hx : key x = true
      · simp only [List.map_cons, List.filter_cons, h, hx, if_pos, ih]
      · have hx2 : key x = false := by
          cases hpx : key x
          · rfl
          · exact absurd hpx hx
        simp only [List.map_cons, List.filter_cons, h, hx2, ih]
        simp

theorem find?_id_of_nodup {α : Type} (idOf : α → Nat) :
    ∀ (l : List α) (q : α), q ∈ l → (l.map idOf).Nodup →
      l.find? (fun e => idOf e == idOf q) = some q := by
  intro l
  induction l with
  | nil => intro q hq; simp at hq
  | cons x xs ih =>
      intro q hq hnd
      simp only [List.map_cons, List.nodup_cons] at hnd
      rcases List.mem_cons.mp hq with hqx | hqxs
      · subst hqx
        simp [List.find?_cons]
      · by_cases hx : (idOf x == idOf q) = true
        · exfalso
          apply hnd.1
          rw [List.mem_map]
          exact ⟨q, hqxs, (beq_iff_eq.mp hx).symm⟩
        · have hx2 : (idOf x == idOf q) = false := by
            cases hpx : (idOf x == idOf q)
            · rfl
            · exact absurd hpx hx
          simp only [List.find?_cons, hx2]
          exact ih q hqxs hnd.2

/-! ## Concrete fixtures for witnesses and counterexamples -/

/-- Default configuration values (`config.py`): `REFRESH_AT_COUNT=0`,
`FREEZE_AT_COUNT=2`, `ALWAYS_REINGEST_ON_REFRESH=false`,
`UPDATE_WINDOW_DAYS=2`, `CLEANUP_AFTER_DAYS=30`. -/
def wCfg : Config :=
  { refresh_at_count := 0
    freeze_at_count := 2
    always_reingest_on_refresh := false
    update_window_days := 2
    cleanup_after_days := 30 }

/-- A concrete environment: day 2 of the epoch, date projection by whole
days, identity-style digests, a quiet scraper and a healthy store. -/
def wEnv : Env :=
  { now := 172800
    pacificDate := fun ts => ts / 86400
    md5h := fun s => s
    shah := encodeHashContent
    refreshPost := fun _ => .gone
    scraped := []
    ingestDoc := fun _ => .ok "doc-new"
    setMetadataOk := fun _ _ => true
    deleteDocOk := fun _ => .ok true }

def wTracked : TrackedPost :=
  { post_id := "p1"
    subreddit := "s"
    created_utc := 0
    first_scraped := 0
    last_updated := 0
    update_count := 0
    status := .new
    contextual_doc_id := some "d1"
    content_hash := "h0" }

def wDB : DB :=
  { tracked := [wTracked], posts := [], comments := [], queue := [], nextQueueId := 1 }

/-! ## Claim C5 — same-day idempotency guard -/

/-- C5 (confirmed).  When the tracked item's `last_updated` falls on the
current calendar day of the reference timezone, `_update_post` returns
success immediately: the store, the statistics and the call trace are left
exactly as they were — no store write, no source fetch, no document-store
call, and every field of the tracking record is untouched. -/
theorem C5_same_day_noop (cfg : Config) (env : Env) (s : St) (t : TrackedPost)
    (hday : env.pacificDate t.last_updated = env.pacificDate env.now) :
    update_post cfg env s t = (s, true) := by
  simp [update_post, hday]

/-- C5 witness at a concrete state: an item last updated at the same Pacific
day as the clock. -/
theorem C5_witness :
    update_post wCfg wEnv (St.ofDB wDB) { wTracked with last_updated := 180000 } = (St.ofDB wDB, true) :=
  C5_same_day_noop wCfg wEnv (St.ofDB wDB) { wTracked with last_updated := 180000 } (by decide)

/-! ## Claim C6 — silent accumulation below the refresh threshold -/

/-- C6 (confirmed).  A non-frozen item with `update_count < refresh_at`
that was not already processed today gets exactly `update_count + 1` and a
fresh `last_updated` stamp persisted through one `upsert_tracked_post`
write, the skip counter is incremented, and the cycle performs no source
fetch and no document-store ingest, patch or delete: the only call it adds
to the trace is that single store write. -/
theorem C6_skip_increment (cfg : Config) (env : Env) (s : St) (t : TrackedPost)
    (_hstatus : t.status ≠ .frozen)
    (hday : env.pacificDate t.last_updated ≠ env.pacificDate env.now)
    (hcount : t.update_count < cfg.refresh_at_count) :
    update_post cfg env s t
      = ((s.upsertTracked
            { t with update_count := t.update_count + 1, last_updated := env.now }).bump
          (fun st => { st with skipped_unchanged := st.skipped_unchanged + 1 }), true)
    ∧ ∀ c ∈ (update_post cfg env s t).1.trace.drop s.trace.length, c.isRemote = false := by
  have heq : update_post cfg env s t
      = ((s.upsertTracked
            { t with update_count := t.update_count + 1, last_updated := env.now }).bump
          (fun st => { st with skipped_unchanged := st.skipped_unchanged + 1 }), true) := by
    simp [update_post, hday, hcount]
  refine ⟨heq, ?_⟩
  intro c hc
  rw [heq] at hc
  simp only [St.bump, St.upsertTracked, List.drop_left] at hc
  simp only [List.mem_singleton] at hc
  subst hc
  rfl

/-- C6 witness at a concrete state: `update_count = -1 < 0 = refresh_at`,
last updated yesterday. -/
theorem C6_witness :
    update_post wCfg wEnv (St.ofDB wDB) { wTracked with update_count := -1 }
      = (((St.ofDB wDB).upsertTracked
            { wTracked with update_count := 0, last_updated := 172800 }).bump
          (fun st => { st with skipped_unchanged := st.skipped_unchanged + 1 }), true) :=
  ((C6_skip_increment wCfg wEnv (St.ofDB wDB) { wTracked with update_count := -1 }
    (by decide) (by decide) (by decide)).1)

/-! ## Claim C7 — idempotent enqueue -/

/-- C7 (confirmed).  Enqueuing the same `(post_id, action)` pair twice, with
priorities `p1` then `p2`, against a queue holding no entry for that pair
leaves exactly one entry for the pair: the row created by the first enqueue
with its priority raised to `max p1 p2`; and in general an enqueue never
takes a queue with at most one entry for the pair to more than one. -/
theorem C7_enqueue_idempotent (now1 now2 : Int) (db : DB)
    (pid sub1 sub2 act : String) (p1 p2 : Int)
    (hfresh : ∀ q ∈ db.queue, ¬(q.post_id = pid ∧ q.action = act)) :
    ((add_to_queue now2 (add_to_queue now1 db pid sub1 act p1) pid sub2 act p2).queue.filter
        (fun q => q.post_id == pid && q.action == act))
      = [{ freshEntry db.nextQueueId pid sub1 act p1 now1 with priority := max p1 p2 }]
    ∧ ∀ (now : Int) (db2 : DB) (sub : String) (p : Int),
        ((db2.queue.filter (fun q => q.post_id == pid && q.action == act)).length ≤ 1) →
        (((add_to_queue now db2 pid sub act p).queue.filter
            (fun q => q.post_id == pid && q.action == act)).length ≤ 1) := by
  have hkeyq : ∀ q ∈ db.queue, (q.post_id == pid && q.action == act) = false := by
    intro q hq
    rw [Bool.eq_false_iff]
    intro hk
    rw [Bool.and_eq_true, beq_iff_eq, beq_iff_eq] at hk
    exact hfresh q hq hk
  have hany : db.queue.any (fun q => q.post_id == pid && q.action == act) = false := by
    rw [List.any_eq_false]
    intro q hq
    rw [hkeyq q hq]
    simp
  have hfilter : db.queue.filter (fun q => q.post_id == pid && q.action == act) = [] := by
    rw [List.filter_eq_nil_iff]
    intro q hq
    rw [hkeyq q hq]
    simp
  have hpres : ∀ x : QueueEntry,
      ((if (x.post_id == pid && x.action == act) = true
          then { x with priority := max x.priority p2 } else x).post_id == pid
        && (if (x.post_id == pid && x.action == act) = true
          then { x with priority := max x.priority p2 } else x).action == act)
        = (x.post_id == pid && x.action == act) := by
    intro x
    split <;> rfl
  constructor
  · have hadd1 : add_to_queue now1 db pid sub1 act p1
        = { db with queue := db.queue ++ [freshEntry db.nextQueueId pid sub1 act p1 now1]
                    nextQueueId := db.nextQueueId + 1 } := by
      unfold add_to_queue
      rw [hany]
      simp
    rw [hadd1]
    have hany2 : ((db.queue ++ [freshEntry db.nextQueueId pid sub1 act p1 now1]).any
        (fun q => q.post_id == pid && q.action == act)) = true := by
      rw [List.any_append]
      simp [freshEntry]
    unfold add_to_queue
    simp only [hany2, if_pos]
    rw [filter_map_key _ _ hpres]
    rw [List.filter_append, hfilter, List.nil_append]
    simp [freshEntry]
  · intro now db2 sub p hlen
    unfold add_to_queue
    by_cases hany2 : db2.queue.any (fun q => q.post_id == pid && q.action == act) = true
    · simp only [hany2, if_pos]
      have hpres2 : ∀ x : QueueEntry,
          ((if (x.post_id == pid && x.action == act) = true
              then { x with priority := max x.priority p } else x).post_id == pid
            && (if (x.post_id == pid && x.action == act) = true
              then { x with priority := max x.priority p } else x).action == act)
            = (x.post_id == pid && x.action == act) := by
        intro x
        split <;> rfl
      rw [filter_map_key _ _ hpres2, List.length_map]
      exact hlen
    · rw [if_neg hany2]
      have hf0 : db2.queue.filter (fun q => q.post_id == pid && q.action == act) = [] := by
        rw [List.filter_eq_nil_iff]
        intro q hq hk
        rw [Bool.not_eq_true] at hany2
        rw [List.any_eq_false] at hany2
        exact hany2 q hq hk
      simp [List.filter_append, hf0, freshEntry]

/-- C7 witness: two concrete enqueues of `("pX", "ingest")` with priorities
0 then 1 against the empty queue, producing the single entry with the
higher priority. -/
theorem C7_witness :
    ((add_to_queue 20 (add_to_queue 10 wDB "pX" "s" "ingest" 0) "pX" "s2" "ingest" 1).queue.filter
        (fun q => q.post_id == "pX" && q.action == "ingest"))
      = [{ freshEntry 1 "pX" "s" "ingest" 0 10 with priority := max 0 1 }] :=
  (C7_enqueue_idempotent 10 20 wDB "pX" "s" "s2" "ingest" 0 1
    (by intro q hq; simp [wDB] at hq)).1

/-! ## Claim C8 — retry backoff -/

/-- C8 (confirmed).  Recording a failure for a queue entry whose current
attempt count is `n` increments `attempts` to `n + 1`, stores the most
recent error string in `last_error`, and sets `scheduled_for` to
`now + 300 * 2^n` seconds, i.e. `now + 5 * 2^n` minutes — so successive
failures starting from `attempts = 0` are delayed by 5, 10, 20, 40, 80
minutes (the second conjunct lists the first five delays, in seconds);
no other entry and no other field is touched. -/
theorem C8_backoff_schedule (now : Int) (db : DB) (q : QueueEntry) (err : String)
    (hq : q ∈ db.queue) (hids : (db.queue.map (fun e => e.id)).Nodup) :
    (mark_queue_failure now db q.id err).queue
      = db.queue.map (fun e =>
          if e.id == q.id then
            { e with attempts := e.attempts + 1, last_error := some err,
                     scheduled_for := now + 300 * 2 ^ q.attempts }
          else e)
    ∧ (List.range 5).map (fun n => (300 : Int) * 2 ^ n) = [300, 600, 1200, 2400, 4800] := by
  constructor
  · have hfind : db.queue.find? (fun e => e.id == q.id) = some q :=
      find?_id_of_nodup (fun e => e.id) db.queue q hq hids
    unfold mark_queue_failure
    rw [hfind]
  · decide

def wQEntry : QueueEntry := { freshEntry 7 "p1" "s" "update" 0 50 with attempts := 2 }

def wQdb : DB := { wDB with queue := [wQEntry] }

/-- C8 witness: an entry with two prior failures gets its third failure
recorded — `attempts` becomes 3 and the retry lands 20 minutes
(1200 seconds) after `now = 1000`. -/
theorem C8_witness :
    (mark_queue_failure 1000 wQdb 7 "boom").queue
      = [{ wQEntry with attempts := 3, last_error := some "boom", scheduled_for := 2200 }] := by
  have h := (C8_backoff_schedule 1000 wQdb wQEntry "boom" (by simp [wQdb])
    (by simp [wQdb])).1
  rw [show wQEntry.id = 7 from rfl] at h
  rw [h]
  simp [wQdb, wQEntry, freshEntry]

/-! ## Claim C9 — upstream deletion purges the item -/

/-- C9 (confirmed).  When the refresh reports the remote item gone, the
update cycle attempts the remote document deletion exactly when a (truthy)
document id is recorded — and the outcome of that remote deletion, success,
`False` or exception, is irrelevant to the rest (last conjunct) — then
unconditionally deletes the tracking record, the cached post and all its
cached comments, increments the deletion counter, and reports success. -/
theorem C9_remote_gone_purges (cfg : Config) (env : Env) (s : St) (t : TrackedPost)
    (hday : env.pacificDate t.last_updated ≠ env.pacificDate env.now)
    (hcount : cfg.refresh_at_count ≤ t.update_count)
    (hgone : env.refreshPost t.post_id = .gone) :
    update_post cfg env s t = (handle_deleted_post (s.call (.fetchPost t.post_id)) t, true)
    ∧ get_tracked_post (update_post cfg env s t).1.db t.post_id = none
    ∧ get_post (update_post cfg env s t).1.db t.post_id = none
    ∧ (∀ c ∈ (update_post cfg env s t).1.db.comments, ¬c.1 = t.post_id)
    ∧ (update_post cfg env s t).1.trace
        = s.trace ++ [Call.fetchPost t.post_id]
            ++ (if docIdTruthy t.contextual_doc_id
                then [Call.docDelete (t.contextual_doc_id.getD "")] else [])
            ++ [Call.dbDeletePost t.post_id]
    ∧ (update_post cfg env s t).1.stats
        = { s.stats with posts_deleted := s.stats.posts_deleted + 1 }
    ∧ ∀ f, update_post cfg { env with deleteDocOk := f } s t = update_post cfg env s t := by
  have heq : update_post cfg env s t
      = (handle_deleted_post (s.call (.fetchPost t.post_id)) t, true) := by
    simp [update_post, hday, not_lt.mpr hcount, hgone]
  have hdb : (update_post cfg env s t).1.db = (delete_post s.db t.post_id).1 := by
    rw [heq]
    by_cases hdoc : docIdTruthy t.contextual_doc_id = true <;>
      simp [handle_deleted_post, hdoc, St.call, St.deletePost, St.bump]
  refine ⟨heq, ?_, ?_, ?_, ?_, ?_, ?_⟩
  · rw [hdb]
    unfold delete_post get_tracked_post
    rw [List.find?_eq_none]
    intro t2 ht2
    rw [List.mem_filter] at ht2
    simp only [Bool.not_eq_eq_eq_not, Bool.not_true] at ht2
    simp [ht2.2]
  · rw [hdb]
    unfold delete_post get_post
    rw [show (List.find? (fun r => r.id == t.post_id)
        (s.db.posts.filter (fun p => !(p.id == t.post_id)))) = none from ?_]
    · rfl
    rw [List.find?_eq_none]
    intro p hp
    rw [List.mem_filter] at hp
    simp only [Bool.not_eq_eq_eq_not, Bool.not_true] at hp
    simp [hp.2]
  · rw [hdb]
    unfold delete_post
    intro c hc
    rw [List.mem_filter] at hc
    simp only [Bool.not_eq_eq_eq_not, Bool.not_true] at hc
    simp only [beq_eq_false_iff_ne, ne_eq] at hc
    exact hc.2
  · rw [heq]
    by_cases hdoc : docIdTruthy t.contextual_doc_id = true <;>
      simp [handle_deleted_post, hdoc, St.call, St.deletePost, St.bump, List.append_assoc]
  · rw [heq]
    by_cases hdoc : docIdTruthy t.contextual_doc_id = true <;>
      simp [handle_deleted_post, hdoc, St.call, St.deletePost, St.bump]
  · intro f
    rfl

/-- C9 witness: the theorem applied at a concrete frozen-clock state with a
recorded document id. -/
theorem C9_witness :
    update_post wCfg wEnv (St.ofDB wDB) wTracked
      = (handle_deleted_post ((St.ofDB wDB).call (.fetchPost "p1")) wTracked, true) :=
  (C9_remote_gone_purges wCfg wEnv (St.ofDB wDB) wTracked (by decide) (by decide) rfl).1

/-! ## Claim C10 — retried ingest of an untracked post -/

/-- C10 (confirmed).  Processing an `ingest` retry entry for a post that has
a cached row but no tracking record ingests the document and deletes the
queue entry as successful, yet creates no tracking record and persists the
returned document id nowhere: the tracked, posts and comments tables are
left exactly as they were, only the queue entry disappears (and the ingest
counter is bumped). -/
theorem C10_retry_ingest_untracked (cfg : Config) (env : Env) (s : St) (q : QueueEntry)
    (post : RedditPost) (docId : String)
    (hact : q.action = "ingest")
    (hpost : get_post s.db q.post_id = some post)
    (htracked : get_tracked_post s.db q.post_id = none)
    (hing : env.ingestDoc post = .ok docId) :
    process_queue_item cfg env s q
      = ((s.call (.docIngest post)).bump (fun st =>
            { st with documents_ingested := st.documents_ingested + 1 })).markSuccess q.id
    ∧ (process_queue_item cfg env s q).db.tracked = s.db.tracked
    ∧ (process_queue_item cfg env s q).db.posts = s.db.posts
    ∧ (process_queue_item cfg env s q).db.comments = s.db.comments
    ∧ (process_queue_item cfg env s q).db.queue
        = s.db.queue.filter (fun e => !(e.id == q.id))
    ∧ get_tracked_post (process_queue_item cfg env s q).db q.post_id = none := by
  have heq : process_queue_item cfg env s q
      = ((s.call (.docIngest post)).bump (fun st =>
            { st with documents_ingested := st.documents_ingested + 1 })).markSuccess q.id := by
    have htracked2 : get_tracked_post (s.call (.docIngest post)).db q.post_id = none := htracked
    simp [process_queue_item, hact, hpost, hing, htracked2]
  refine ⟨heq, ?_, ?_, ?_, ?_, ?_⟩
  · simp [heq, St.call, St.bump, St.markSuccess, mark_queue_success]
  · simp [heq, St.call, St.bump, St.markSuccess, mark_queue_success]
  · simp [heq, St.call, St.bump, St.markSuccess, mark_queue_success]
  · simp [heq, St.call, St.bump, St.markSuccess, mark_queue_success]
  · rw [heq]
    exact htracked

def wDB10 : DB :=
  { tracked := []
    posts := [{ basePost with id := "p2" }]
    comments := []
    queue := [freshEntry 3 "p2" "s" "ingest" 0 60]
    nextQueueId := 4 }

/-- C10 witness: the theorem applied at a concrete state with a cached but
untracked post and its pending `ingest` entry. -/
theorem C10_witness :
    process_queue_item wCfg wEnv (St.ofDB wDB10) (freshEntry 3 "p2" "s" "ingest" 0 60)
      = (((St.ofDB wDB10).call (.docIngest { basePost with id := "p2" })).bump (fun st =>
            { st with documents_ingested := st.documents_ingested + 1 })).markSuccess 3 :=
  (C10_retry_ingest_untracked wCfg wEnv (St.ofDB wDB10) (freshEntry 3 "p2" "s" "ingest" 0 60)
    { basePost with id := "p2" } "doc-new" rfl (by decide) rfl rfl).1

/-! ## Status-tracking lemmas

These describe how each store operation and each per-item pipeline step
affects `statusOf` — the status of one tracking record — and are the
backbone of the lifecycle invariants. -/

theorem upsertRow_post_id (t r : TrackedPost) : (upsertRow t r).post_id = r.post_id := by
  unfold upsertRow
  split <;> rfl

theorem find?_filter_of_imp {α : Type} (p q : α → Bool)
    (h : ∀ x, p x = true → q x = true) :
    ∀ l : List α, (l.filter q).find? p = l.find? p := by
  intro l
  induction l with
  | nil => rfl
  | cons x xs ih =>
      by_cases hq : q x = true
      · rw [List.filter_cons_of_pos hq]
        cases hp : p x
        · rw [List.find?_cons_of_neg _ (by simp [hp]),
            List.find?_cons_of_neg _ (by simp [hp]), ih]
        · rw [List.find?_cons_of_pos _ hp, List.find?_cons_of_pos _ hp]
      · have hq2 : q x = false := Bool.eq_false_iff.mpr hq
        rw [List.filter_cons_of_neg (by simp [hq2])]
        have hp2 : p x = false := by
          cases hp : p x
          · rfl
          · exact absurd (h x hp) hq
        rw [List.find?_cons_of_neg _ (by simp [hp2]), ih]

theorem statusOf_upsert_ne (db : DB) (t : TrackedPost) (pid : String)
    (h : ¬t.post_id = pid) :
    statusOf (upsert_tracked_post db t) pid = statusOf db pid := by
  unfold statusOf get_tracked_post upsert_tracked_post
  split
  · simp only
    rw [find?_map_congr (upsertRow t) (fun t2 => t2.post_id == pid) ?hc1 ?hc2 db.tracked]
    case hc1 =>
      intro x
      simp only [upsertRow_post_id]
    case hc2 =>
      intro x hx
      unfold upsertRow
      rw [if_neg ?_]
      rw [Bool.not_eq_true, Bool.eq_false_iff]
      intro hk
      rw [beq_iff_eq] at hx hk
      exact h (hk.symm.trans hx)
  · simp only
    rw [List.find?_append]
    rw [List.find?_cons_of_neg _ (by simp [h]), List.find?_nil, Option.or_none]

theorem statusOf_upsert_self (db : DB) (t : TrackedPost) :
    statusOf (upsert_tracked_post db t) t.post_id = some t.status := by
  unfold statusOf get_tracked_post upsert_tracked_post
  split
  · rename_i hany
    simp only
    rw [find?_map_found (upsertRow t) (fun t2 => t2.post_id == t.post_id) ?hc1 db.tracked]
    case hc1 =>
      intro x
      simp only [upsertRow_post_id]
    rw [List.any_eq_true] at hany
    obtain ⟨r, hr, hpr⟩ := hany
    cases hfind : List.find? (fun t2 => t2.post_id == t.post_id) db.tracked with
    | none =>
        rw [List.find?_eq_none] at hfind
        exact absurd hpr (hfind r hr)
    | some r2 =>
        have hp2 := List.find?_some hfind
        simp only [Option.map_some']
        unfold upsertRow
        rw [if_pos hp2]
  · simp only
    rename_i hany
    rw [List.find?_append]
    have hnone : List.find? (fun t2 => t2.post_id == t.post_id) db.tracked = none := by
      rw [List.find?_eq_none]
      intro x hx hpx
      exact hany (List.any_eq_true.mpr ⟨x, hx, hpx⟩)
    rw [hnone, Option.none_or, List.find?_cons_of_pos _ (by simp)]
    rfl

theorem statusOf_save_post (db : DB) (p : RedditPost) (pid : String) :
    statusOf (save_post db p) pid = statusOf db pid := rfl

theorem statusOf_add_to_queue (now : Int) (db : DB) (pid2 sub act : String)
    (pr : Int) (pid : String) :
    statusOf (add_to_queue now db pid2 sub act pr) pid = statusOf db pid := by
  unfold statusOf get_tracked_post add_to_queue
  split <;> rfl

theorem statusOf_mark_success (db : DB) (qid : Nat) (pid : String) :
    statusOf (mark_queue_success db qid) pid = statusOf db pid := rfl

theorem statusOf_mark_failure (now : Int) (db : DB) (qid : Nat) (err : String)
    (pid : String) :
    statusOf (mark_queue_failure now db qid err) pid = statusOf db pid := rfl

theorem statusOf_delete_self (db : DB) (pid : String) :
    statusOf (delete_post db pid).1 pid = none := by
  unfold statusOf get_tracked_post delete_post
  simp only
  rw [Option.map_eq_none']
  rw [List.find?_eq_none]
  intro x hx
  rw [List.mem_filter] at hx
  have := hx.2
  simp only [Bool.not_eq_eq_eq_not, Bool.not_true] at this
  simp [this]

theorem statusOf_delete_ne (db : DB) (pid2 pid : String) (h : ¬pid2 = pid) :
    statusOf (delete_post db pid2).1 pid = statusOf db pid := by
  unfold statusOf get_tracked_post delete_post
  simp only
  rw [find?_filter_of_imp (fun t2 => t2.post_id == pid) (fun t2 => !(t2.post_id == pid2))
    ?hc db.tracked]
  case hc =>
    intro x hx
    rw [beq_iff_eq] at hx
    simp only [Bool.not_eq_eq_eq_not, Bool.not_true, beq_eq_false_iff_ne, ne_eq]
    intro hk
    exact h (by rw [← hx, hk])

theorem smart_sync_db (env : Env) (s : St) (p : RedditPost) (ex : Option String)
    (b : Bool) :
    (smart_sync env s p ex b).1.db = s.db ∧ (smart_sync env s p ex b).1.stats = s.stats := by
  unfold smart_sync
  cases ex with
  | none => exact ⟨rfl, rfl⟩
  | some d =>
      cases b
      · exact ⟨rfl, rfl⟩
      · exact ⟨rfl, rfl⟩

theorem statusOf_handle_deleted_ne (s : St) (t : TrackedPost) (pid : String)
    (h : ¬t.post_id = pid) :
    statusOf (handle_deleted_post s t).db pid = statusOf s.db pid := by
  unfold handle_deleted_post
  split <;>
    · simp only [St.call, St.deletePost, St.bump]
      exact statusOf_delete_ne _ _ _ h

/-- `_update_post` never touches the tracking record of a different post. -/
theorem statusOf_update_post_ne (cfg : Config) (env : Env) (s : St) (t : TrackedPost)
    (pid : String) (h : ¬t.post_id = pid) :
    statusOf (update_post cfg env s t).1.db pid = statusOf s.db pid := by
  unfold update_post
  split
  · rfl
  split
  · simp only [St.upsertTracked, St.bump]
    exact statusOf_upsert_ne _ _ _ h
  cases henv : env.refreshPost t.post_id with
  | fetchFailed m =>
      simp only [St.call, St.addQueue, St.bump]
      exact statusOf_add_to_queue _ _ _ _ _ _ _
  | gone =>
      simp only [St.call]
      exact statusOf_handle_deleted_ne _ _ _ h
  | found post =>
      simp only
      split
      · rcases hsync : smart_sync env ((s.call (.fetchPost t.post_id)).savePost
            { post with update_count := t.update_count + 1 })
            { post with update_count := t.update_count + 1 } t.contextual_doc_id true
          with ⟨s2, r⟩
        have hdb2 : s2.db = save_post s.db { post with update_count := t.update_count + 1 } := by
          have hfst := congrArg (fun x => x.1.db) hsync
          simp only at hfst
          rw [← hfst]
          exact (smart_sync_db _ _ _ _ _).1
        have h1 : statusOf s2.db pid = statusOf s.db pid := by
          rw [hdb2]
          exact statusOf_save_post _ _ _
        cases r with
        | ok d =>
            simp only [St.upsertTracked, St.bump]
            rw [← h1]
            exact statusOf_upsert_ne _ _ _ h
        | error e =>
            simp only [St.addQueue, St.bump]
            rw [← h1]
            exact statusOf_add_to_queue _ _ _ _ _ _ _
      · split
        · split
          · simp only [St.call, St.savePost, St.upsertTracked, St.bump]
            have h1 : statusOf (save_post s.db
                { post with update_count := t.update_count + 1 }) pid
                = statusOf s.db pid := statusOf_save_post _ _ _
            rw [← h1]
            exact statusOf_upsert_ne _ _ _ h
          · simp only [St.call, St.upsertTracked, St.bump]
            exact statusOf_upsert_ne _ _ _ h
        · simp only [St.call, St.upsertTracked, St.bump]
          exact statusOf_upsert_ne _ _ _ h

/-- `_update_post` on its own item: the status is left alone, the record is
deleted, re-stamped with the snapshot status, or moved to UPDATING. -/
theorem statusOf_update_post_self (cfg : Config) (env : Env) (s : St) (t : TrackedPost) :
    statusOf (update_post cfg env s t).1.db t.post_id = statusOf s.db t.post_id
    ∨ statusOf (update_post cfg env s t).1.db t.post_id = none
    ∨ statusOf (update_post cfg env s t).1.db t.post_id = some t.status
    ∨ statusOf (update_post cfg env s t).1.db t.post_id = some .updating := by
  unfold update_post
  split
  · left
    rfl
  split
  · right; right; left
    simp only [St.upsertTracked, St.bump]
    exact statusOf_upsert_self _ _
  cases henv : env.refreshPost t.post_id with
  | fetchFailed m =>
      left
      simp only [St.call, St.addQueue, St.bump]
      exact statusOf_add_to_queue _ _ _ _ _ _ _
  | gone =>
      right; left
      simp only [St.call]
      unfold handle_deleted_post
      split <;>
        · simp only [St.call, St.deletePost, St.bump]
          exact statusOf_delete_self _ _
  | found post =>
      simp only
      split
      · rcases hsync : smart_sync env ((s.call (.fetchPost t.post_id)).savePost
            { post with update_count := t.update_count + 1 })
            { post with update_count := t.update_count + 1 } t.contextual_doc_id true
          with ⟨s2, r⟩
        have hdb2 : s2.db = save_post s.db { post with update_count := t.update_count + 1 } := by
          have hfst := congrArg (fun x => x.1.db) hsync
          simp only at hfst
          rw [← hfst]
          exact (smart_sync_db _ _ _ _ _).1
        cases r with
        | ok d =>
            right; right; right
            simp only [St.upsertTracked, St.bump]
            exact statusOf_upsert_self _ _
        | error e =>
            left
            simp only [St.addQueue, St.bump]
            have h1 : statusOf s2.db t.post_id = statusOf s.db t.post_id := by
              rw [hdb2]
              exact statusOf_save_post _ _ _
            rw [← h1]
            exact statusOf_add_to_queue _ _ _ _ _ _ _
      · split
        · split
          · right; right; left
            simp only [St.call, St.savePost, St.upsertTracked, St.bump]
            exact statusOf_upsert_self _ _
          · right; right; left
            simp only [St.call, St.upsertTracked, St.bump]
            exact statusOf_upsert_self _ _
        · right; right; left
          simp only [St.call, St.upsertTracked, St.bump]
          exact statusOf_upsert_self _ _

/-- The repair step never touches the tracking record of a different post. -/
theorem statusOf_fix_item_ne (env : Env) (s : St) (t : TrackedPost) (pid : String)
    (h : ¬t.post_id = pid) :
    statusOf (fix_missing_hash_item env s t).db pid = statusOf s.db pid := by
  unfold fix_missing_hash_item
  cases henv : env.refreshPost t.post_id with
  | fetchFailed m => rfl
  | gone =>
      simp only [St.call]
      exact statusOf_handle_deleted_ne _ _ _ h
  | found post =>
      simp only
      rcases hsync : smart_sync env ((s.call (.fetchPost t.post_id)).savePost post)
          post t.contextual_doc_id true with ⟨s2, r⟩
      have hdb2 : s2.db = save_post s.db post := by
        have hfst := congrArg (fun x => x.1.db) hsync
        simp only at hfst
        rw [← hfst]
        exact (smart_sync_db _ _ _ _ _).1
      have h1 : statusOf s2.db pid = statusOf s.db pid := by
        rw [hdb2]
        exact statusOf_save_post _ _ _
      cases r with
      | ok d =>
          simp only [St.upsertTracked, St.bump]
          rw [← h1]
          exact statusOf_upsert_ne _ _ _ h
      | error e => exact h1

/-- The repair step on its own item: status untouched, deleted, or
re-stamped with the snapshot status. -/
theorem statusOf_fix_item_self (env : Env) (s : St) (t : TrackedPost) :
    statusOf (fix_missing_hash_item env s t).db t.post_id = statusOf s.db t.post_id
    ∨ statusOf (fix_missing_hash_item env s t).db t.post_id = none
    ∨ statusOf (fix_missing_hash_item env s t).db t.post_id = some t.status := by
  unfold fix_missing_hash_item
  cases henv : env.refreshPost t.post_id with
  | fetchFailed m =>
      left
      rfl
  | gone =>
      right; left
      simp only [St.call]
      unfold handle_deleted_post
      split <;>
        · simp only [St.call, St.deletePost, St.bump]
          exact statusOf_delete_self _ _
  | found post =>
      simp only
      rcases hsync : smart_sync env ((s.call (.fetchPost t.post_id)).savePost post)
          post t.contextual_doc_id true with ⟨s2, r⟩
      have hdb2 : s2.db = save_post s.db post := by
        have hfst := congrArg (fun x => x.1.db) hsync
        simp only at hfst
        rw [← hfst]
        exact (smart_sync_db _ _ _ _ _).1
      cases r with
      | ok d =>
          right; right
          simp only [St.upsertTracked, St.bump]
          exact statusOf_upsert_self _ _
      | error e =>
          left
          rw [hdb2]
          exact statusOf_save_post _ _ _

/-- The freeze step leaves a record's status alone or sets it to FROZEN. -/
theorem statusOf_freeze_post (env : Env) (s : St) (t : TrackedPost) (pid : String) :
    statusOf (freeze_post env s t).db pid = statusOf s.db pid
    ∨ statusOf (freeze_post env s t).db pid = some .frozen := by
  unfold freeze_post
  by_cases h : t.post_id = pid
  · right
    simp only [St.upsertTracked, St.bump]
    have h2 : ({ t with status := PostStatus.frozen, last_updated := env.now } : TrackedPost).post_id = pid := h
    exact h2 ▸ statusOf_upsert_self s.db _
  · left
    simp only [St.upsertTracked, St.bump]
    exact statusOf_upsert_ne _ _ _ h

/-- Registering scraped posts preserves the status of every tracked item. -/
theorem statusOf_process_new (env : Env) (s : St) (p : RedditPost) (pid : String)
    (x : PostStatus) (hx : statusOf s.db pid = some x) :
    statusOf (process_new_post env s p).1.db pid = some x := by
  unfold process_new_post
  cases htr : get_tracked_post s.db p.id with
  | some ex => exact hx
  | none =>
      have hne : ¬p.id = pid := by
        intro hk
        rw [hk] at htr
        unfold statusOf at hx
        rw [htr] at hx
        simp at hx
      simp only
      cases hing : env.ingestDoc p with
      | ok d =>
          simp only [St.savePost, St.call, St.upsertTracked, St.bump]
          have h1 : statusOf (save_post s.db p) pid = statusOf s.db pid :=
            statusOf_save_post _ _ _
          rw [← hx, ← h1]
          exact statusOf_upsert_ne _ _ _ hne
      | error e =>
          simp only [St.savePost, St.call, St.addQueue, St.bump]
          rw [← hx]
          exact (statusOf_add_to_queue _ _ _ _ _ _ _).trans (statusOf_save_post _ _ _)

/-- Filtering the tracking table keeps a record's status or drops the
record, provided ids are unique. -/
theorem statusOf_filter_tracked (db : DB) (q : TrackedPost → Bool) (pid : String)
    (huniq : (db.tracked.map (fun t => t.post_id)).Nodup) :
    ((db.tracked.filter q).find? (fun t2 => t2.post_id == pid)).map (fun t => t.status)
        = statusOf db pid
    ∨ ((db.tracked.filter q).find? (fun t2 => t2.post_id == pid)).map (fun t => t.status)
        = none := by
  cases hf : (db.tracked.filter q).find? (fun t2 => t2.post_id == pid) with
  | none =>
      right
      rfl
  | some r =>
      left
      have hr := List.mem_of_find?_eq_some hf
      have hpr := List.find?_some hf
      rw [List.mem_filter] at hr
      cases hf0 : db.tracked.find? (fun t2 => t2.post_id == pid) with
      | none =>
          rw [List.find?_eq_none] at hf0
          exact absurd hpr (hf0 r hr.1)
      | some r0 =>
          have hr0 := List.mem_of_find?_eq_some hf0
          have hpr0 := List.find?_some hf0
          have hrr : r = r0 := by
            refine List.inj_on_of_nodup_map huniq hr.1 hr0 ?_
            rw [beq_iff_eq] at hpr hpr0
            rw [hpr, hpr0]
          unfold statusOf get_tracked_post
          rw [hf0, hrr]

/-- `cleanup` keeps a record's status or deletes the record. -/
theorem statusOf_cleanup (cfg : Config) (env : Env) (s : St) (pid : String)
    (huniq : (s.db.tracked.map (fun t => t.post_id)).Nodup) :
    statusOf (cleanup cfg env s).db pid = statusOf s.db pid
    ∨ statusOf (cleanup cfg env s).db pid = none := by
  unfold cleanup
  split
  · left
    rfl
  simp only
  unfold cleanup_old_posts
  dsimp only
  split
  · simp only
    unfold statusOf get_tracked_post
    exact statusOf_filter_tracked s.db _ pid huniq
  · left
    rfl

/-- Fold a per-item preservation argument over a phase's item list. -/
theorem foldl_preserve {α β : Type} (f : β → α → β) (P : β → Prop) (C : α → Prop)
    (hstep : ∀ b a, C a → P b → P (f b a)) :
    ∀ l : List α, (∀ a ∈ l, C a) → ∀ b, P b → P (l.foldl f b) := by
  intro l
  induction l with
  | nil =>
      intro _ b hb
      exact hb
  | cons a as ih =>
      intro hl b hb
      simp only [List.foldl_cons]
      exact ih (fun a2 ha2 => hl a2 (List.mem_cons_of_mem _ ha2)) _
        (hstep b a (hl a (List.mem_cons_self _ _)) hb)

theorem mem_get_queue_items (now : Int) (db : DB) (limit : Nat) (q : QueueEntry)
    (hq : q ∈ get_queue_items now db limit) : q ∈ db.queue := by
  unfold get_queue_items at hq
  have hq2 := List.take_subset _ _ hq
  rw [mem_sortBy] at hq2
  exact (List.mem_filter.mp hq2).1

theorem mem_get_posts_to_update_iff (db : DB) (fa : Int) (t : TrackedPost) :
    t ∈ get_posts_to_update db fa
      ↔ t ∈ db.tracked ∧ t.status ≠ .frozen ∧ t.update_count < fa := by
  unfold get_posts_to_update
  rw [mem_sortBy, List.mem_filter]
  simp

theorem mem_get_posts_to_freeze_iff (db : DB) (fa : Int) (t : TrackedPost) :
    t ∈ get_posts_to_freeze db fa
      ↔ t ∈ db.tracked ∧ t.status ≠ .frozen ∧ fa ≤ t.update_count := by
  unfold get_posts_to_freeze
  rw [List.mem_filter]
  simp

theorem mem_get_posts_with_missing_hash_iff (db : DB) (t : TrackedPost) :
    t ∈ get_posts_with_missing_hash db
      ↔ t ∈ db.tracked ∧ t.content_hash = "" ∧ t.status ≠ .frozen := by
  unfold get_posts_with_missing_hash
  rw [List.mem_filter]
  simp

/-- Processing one queue entry preserves the status of any record the entry
does not target through an `update` action: `ingest` retries only re-stamp
the already-stored status, and bookkeeping touches only the queue. -/
theorem statusOf_queue_item (cfg : Config) (env : Env) (s : St) (q : QueueEntry)
    (pid : String) (hC : q.action = "update" → ¬q.post_id = pid) :
    statusOf (process_queue_item cfg env s q).db pid = statusOf s.db pid := by
  unfold process_queue_item
  split
  · cases hp : get_post s.db q.post_id with
    | none =>
        simp only [St.markSuccess]
        exact statusOf_mark_success _ _ _
    | some post =>
        simp only [St.call]
        cases hing : env.ingestDoc post with
        | error e =>
            simp only [St.markFailure]
            exact statusOf_mark_failure _ _ _ _ _
        | ok d =>
            cases htr : get_tracked_post s.db q.post_id with
            | none =>
                simp only [htr, St.bump, St.markSuccess]
                exact statusOf_mark_success _ _ _
            | some tr =>
                simp only [htr, St.upsertTracked, St.bump, St.markSuccess]
                have htrp : tr.post_id = q.post_id := by
                  have := List.find?_some htr
                  rw [beq_iff_eq] at this
                  exact this
                by_cases hpid : tr.post_id = pid
                · have hqp : q.post_id = pid := htrp.symm.trans hpid
                  have h1 : statusOf (upsert_tracked_post s.db
                      { tr with contextual_doc_id := some d }) pid = some tr.status := by
                    have h2 : ({ tr with contextual_doc_id := some d } : TrackedPost).post_id
                        = pid := hpid
                    exact h2 ▸ statusOf_upsert_self s.db _
                  have h3 : statusOf s.db pid = some tr.status := by
                    unfold statusOf
                    rw [← hqp, htr]
                    rfl
                  rw [statusOf_mark_success, h1, h3]
                · rw [statusOf_mark_success]
                  exact statusOf_upsert_ne _ _ _ hpid
  · split
    · rename_i hne hupd
      have hact : q.action = "update" := by
        rw [beq_iff_eq] at hupd
        exact hupd
      cases htr : get_tracked_post s.db q.post_id with
      | none =>
          simp only [St.markSuccess]
          exact statusOf_mark_success _ _ _
      | some tr =>
          simp only [St.markSuccess]
          have htrp : tr.post_id = q.post_id := by
            have := List.find?_some htr
            rw [beq_iff_eq] at this
            exact this
          have hnt : ¬tr.post_id = pid := by
            rw [htrp]
            exact hC hact
          exact (statusOf_mark_success _ _ _).trans (statusOf_update_post_ne _ _ _ _ _ hnt)
    · simp only [St.markSuccess]
      exact statusOf_mark_success _ _ _

/-- The queue-drain phase preserves the status of every record that has no
pending `update` entry. -/
theorem statusOf_process_queue (cfg : Config) (env : Env) (s : St) (pid : String)
    (hq : ∀ q ∈ s.db.queue, q.action = "update" → ¬q.post_id = pid) :
    statusOf (process_queue cfg env s).db pid = statusOf s.db pid := by
  unfold process_queue
  refine foldl_preserve (process_queue_item cfg env)
    (fun b : St => statusOf b.db pid = statusOf s.db pid)
    (fun q : QueueEntry => q.action = "update" → ¬q.post_id = pid) ?_ _ ?_ _ rfl
  · intro b q hCq hb
    rw [← hb]
    exact statusOf_queue_item cfg env b q pid hCq
  · intro q hq2
    exact hq q (mem_get_queue_items _ _ _ q hq2)

/-- The scrape phase preserves the status of every already-tracked record. -/
theorem statusOf_scrape_phase (cfg : Config) (env : Env) (s : St) (pid : String)
    (x : PostStatus) (hx : statusOf s.db pid = some x) :
    statusOf (scrape_and_process_new cfg env s).db pid = some x := by
  unfold scrape_and_process_new
  refine foldl_preserve _ (fun b : St => statusOf b.db pid = some x)
    (fun _ : RedditPost => True) ?_ _ (fun _ _ => trivial) _ ?_
  · intro b p _ hb
    dsimp only
    split
    · exact statusOf_process_new env b p pid x hb
    · exact hb
  · exact hx

/-- The repair phase: the status of a record is preserved, or the record is
deleted, or it is re-stamped with its stored status; a frozen record is
never selected, so its status is preserved exactly. -/
theorem statusOf_fix_phase (env : Env) (s : St) (pid : String) (st0 : PostStatus)
    (huniq : (s.db.tracked.map (fun t => t.post_id)).Nodup)
    (hst : statusOf s.db pid = some st0) :
    (statusOf (fix_missing_hashes env s).db pid = some st0
      ∨ statusOf (fix_missing_hashes env s).db pid = none)
    ∧ (st0 = .frozen → statusOf (fix_missing_hashes env s).db pid = some st0) := by
  have hrow : ∀ t ∈ get_posts_with_missing_hash s.db,
      t.post_id = pid → (t.status = st0 ∧ t.status ≠ .frozen) := by
    intro t ht hpid
    rw [mem_get_posts_with_missing_hash_iff] at ht
    unfold statusOf at hst
    cases hf : get_tracked_post s.db pid with
    | none =>
        rw [hf] at hst
        simp at hst
    | some r =>
        rw [hf] at hst
        simp only [Option.map_some', Option.some.injEq] at hst
        have hrp : r.post_id = pid := by
          have := List.find?_some hf
          rw [beq_iff_eq] at this
          exact this
        have : t = r := List.inj_on_of_nodup_map huniq ht.1
          (List.mem_of_find?_eq_some hf) (by rw [hpid, hrp])
        subst this
        exact ⟨hst, ht.2.2⟩
  unfold fix_missing_hashes
  constructor
  · refine foldl_preserve _
      (fun b : St => statusOf b.db pid = some st0 ∨ statusOf b.db pid = none)
      (fun t : TrackedPost => t.post_id = pid → t.status = st0) ?_ _ ?_ _ (Or.inl hst)
    · intro b t hCt hb
      by_cases hpid : t.post_id = pid
      · rcases statusOf_fix_item_self env b t with h1 | h1 | h1
        · rw [hpid] at h1
          rw [h1]
          exact hb
        · right
          rw [hpid] at h1
          exact h1
        · left
          rw [hpid] at h1
          rw [h1, hCt hpid]
      · rcases hb with hb | hb
        · left
          rw [statusOf_fix_item_ne env b t pid hpid]
          exact hb
        · right
          rw [statusOf_fix_item_ne env b t pid hpid]
          exact hb
    · intro t ht
      exact fun hpid => (hrow t ht hpid).1
  · intro hfr
    refine foldl_preserve _ (fun b : St => statusOf b.db pid = some st0)
      (fun t : TrackedPost => ¬t.post_id = pid) ?_ _ ?_ _ hst
    · intro b t hCt hb
      rw [statusOf_fix_item_ne env b t pid hCt]
      exact hb
    · intro t ht
      intro hpid
      exact (hrow t ht hpid).2 (by rw [(hrow t ht hpid).1, hfr])

/-- The update phase: a record's status stays, is deleted, advances to
UPDATING, or is re-stamped with its stored status; a frozen record is never
selected, so its status is preserved exactly. -/
theorem statusOf_update_phase (cfg : Config) (env : Env) (s : St) (pid : String)
    (st0 : PostStatus)
    (huniq : (s.db.tracked.map (fun t => t.post_id)).Nodup)
    (hst : statusOf s.db pid = some st0) :
    (statusOf (update_existing_posts cfg env s).db pid = some st0
      ∨ statusOf (update_existing_posts cfg env s).db pid = none
      ∨ statusOf (update_existing_posts cfg env s).db pid = some .updating)
    ∧ (st0 = .frozen → statusOf (update_existing_posts cfg env s).db pid = some st0) := by
  have hrow : ∀ t ∈ get_posts_to_update s.db cfg.freeze_at_count,
      t.post_id = pid → (t.status = st0 ∧ t.status ≠ .frozen) := by
    intro t ht hpid
    rw [mem_get_posts_to_update_iff] at ht
    unfold statusOf at hst
    cases hf : get_tracked_post s.db pid with
    | none =>
        rw [hf] at hst
        simp at hst
    | some r =>
        rw [hf] at hst
        simp only [Option.map_some', Option.some.injEq] at hst
        have hrp : r.post_id = pid := by
          have := List.find?_some hf
          rw [beq_iff_eq] at this
          exact this
        have : t = r := List.inj_on_of_nodup_map huniq ht.1
          (List.mem_of_find?_eq_some hf) (by rw [hpid, hrp])
        subst this
        exact ⟨hst, ht.2.1⟩
  unfold update_existing_posts
  constructor
  · refine foldl_preserve _
      (fun b : St => statusOf b.db pid = some st0 ∨ statusOf b.db pid = none
        ∨ statusOf b.db pid = some .updating)
      (fun t : TrackedPost => t.post_id = pid → t.status = st0) ?_ _ ?_ _ (Or.inl hst)
    · intro b t hCt hb
      dsimp only
      by_cases hpid : t.post_id = pid
      · rcases statusOf_update_post_self cfg env b t with h1 | h1 | h1 | h1
        · rw [hpid] at h1
          rw [h1]
          exact hb
        · right; left
          rw [hpid] at h1
          exact h1
        · left
          rw [hpid] at h1
          rw [h1, hCt hpid]
        · right; right
          rw [hpid] at h1
          exact h1
      · have hne := statusOf_update_post_ne cfg env b t pid hpid
        rcases hb with hb | hb | hb
        · left
          rw [hne]
          exact hb
        · right; left
          rw [hne]
          exact hb
        · right; right
          rw [hne]
          exact hb
    · intro t ht
      exact fun hpid => (hrow t ht hpid).1
  · intro hfr
    refine foldl_preserve _ (fun b : St => statusOf b.db pid = some st0)
      (fun t : TrackedPost => ¬t.post_id = pid) ?_ _ ?_ _ hst
    · intro b t hCt hb
      dsimp only
      rw [statusOf_update_post_ne cfg env b t pid hCt]
      exact hb
    · intro t ht
      intro hpid
      exact (hrow t ht hpid).2 (by rw [(hrow t ht hpid).1, hfr])

/-- The freeze sweep only ever moves statuses towards FROZEN. -/
theorem statusOf_freeze_phase (cfg : Config) (env : Env) (s : St) (pid : String) :
    statusOf (freeze_old_posts cfg env s).db pid = statusOf s.db pid
    ∨ statusOf (freeze_old_posts cfg env s).db pid = some .frozen := by
  unfold freeze_old_posts
  refine foldl_preserve _
    (fun b : St => statusOf b.db pid = statusOf s.db pid
      ∨ statusOf b.db pid = some .frozen)
    (fun _ : TrackedPost => True) ?_ _ (fun _ _ => trivial) _ (Or.inl rfl)
  intro b t _ hb
  rcases statusOf_freeze_post env b t pid with h1 | h1
  · rw [h1]
    exact hb
  · right
    exact h1

/-! ## Claim C2 — one-directional status evolution -/

/-- C2, amended theorem.  For every pipeline phase, over a store with unique
tracking ids: (1) a FROZEN item stays FROZEN (or is hard-deleted, which is
not a status change) — *provided* no pending `update` retry entry exists for
it, because `_update_post` performs no status check and retry-queue
processing would otherwise feed a FROZEN item back into it (see
`C2_counterexample`); and (2) no tracked item with a non-NEW status is ever
returned to NEW by any phase. -/
theorem C2_status_one_directional (cfg : Config) (env : Env) (db : DB) (pid : String)
    (op : PipelineOp)
    (huniq : (db.tracked.map (fun t => t.post_id)).Nodup)
    (hqueue : ∀ q ∈ db.queue, q.action = "update" → ¬q.post_id = pid) :
    (statusOf db pid = some .frozen →
      statusOf (applyOp cfg env op (St.ofDB db)).db pid = some .frozen
      ∨ statusOf (applyOp cfg env op (St.ofDB db)).db pid = none)
    ∧ (∀ st0, statusOf db pid = some st0 → st0 ≠ .new →
        statusOf (applyOp cfg env op (St.ofDB db)).db pid ≠ some .new) := by
  cases op with
  | queueOp =>
      have hpres := statusOf_process_queue cfg env (St.ofDB db) pid hqueue
      constructor
      · intro hfr
        left
        simp only [applyOp]
        rw [hpres]
        exact hfr
      · intro st0 hst hne
        simp only [applyOp]
        rw [hpres]
        rw [show statusOf (St.ofDB db).db pid = statusOf db pid from rfl, hst]
        simp only [Ne, Option.some.injEq]
        exact hne
  | fixHashesOp =>
      constructor
      · intro hfr
        have h := statusOf_fix_phase env (St.ofDB db) pid .frozen huniq hfr
        left
        simp only [applyOp]
        exact h.2 rfl
      · intro st0 hst hne
        have h := statusOf_fix_phase env (St.ofDB db) pid st0 huniq hst
        simp only [applyOp]
        rcases h.1 with h1 | h1 <;> rw [h1]
        · simp only [Ne, Option.some.injEq]
          exact hne
        · simp
  | scrapeOp =>
      constructor
      · intro hfr
        left
        simp only [applyOp]
        exact statusOf_scrape_phase cfg env (St.ofDB db) pid .frozen hfr
      · intro st0 hst hne
        simp only [applyOp]
        rw [statusOf_scrape_phase cfg env (St.ofDB db) pid st0 hst]
        simp only [Ne, Option.some.injEq]
        exact hne
  | updateOp =>
      constructor
      · intro hfr
        have h := statusOf_update_phase cfg env (St.ofDB db) pid .frozen huniq hfr
        left
        simp only [applyOp]
        exact h.2 rfl
      · intro st0 hst hne
        have h := statusOf_update_phase cfg env (St.ofDB db) pid st0 huniq hst
        simp only [applyOp]
        rcases h.1 with h1 | h1 | h1 <;> rw [h1]
        · simp only [Ne, Option.some.injEq]
          exact hne
        · simp
        · decide
  | freezeOp =>
      constructor
      · intro hfr
        simp only [applyOp]
        rcases statusOf_freeze_phase cfg env (St.ofDB db) pid with h1 | h1
        · left
          rw [h1]
          exact hfr
        · left
          exact h1
      · intro st0 hst hne
        simp only [applyOp]
        rcases statusOf_freeze_phase cfg env (St.ofDB db) pid with h1 | h1
        · rw [h1]
          rw [show statusOf (St.ofDB db).db pid = statusOf db pid from rfl, hst]
          simp only [Ne, Option.some.injEq]
          exact hne
        · rw [h1]
          decide
  | cleanupOp =>
      constructor
      · intro hfr
        simp only [applyOp]
        rcases statusOf_cleanup cfg env (St.ofDB db) pid huniq with h1 | h1
        · left
          rw [h1]
          exact hfr
        · right
          exact h1
      · intro st0 hst hne
        simp only [applyOp]
        rcases statusOf_cleanup cfg env (St.ofDB db) pid huniq with h1 | h1
        · rw [h1]
          rw [show statusOf (St.ofDB db).db pid = statusOf db pid from rfl, hst]
          simp only [Ne, Option.some.injEq]
          exact hne
        · rw [h1]
          simp

def c2Tracked : TrackedPost :=
  { post_id := "p1"
    subreddit := "s"
    created_utc := 0
    first_scraped := 0
    last_updated := 0
    update_count := 2
    status := .frozen
    contextual_doc_id := some "d1"
    content_hash := "h0" }

def c2DB : DB :=
  { tracked := [c2Tracked]
    posts := []
    comments := []
    queue := [freshEntry 1 "p1" "s" "update" 0 0]
    nextQueueId := 2 }

def c2Env : Env :=
  { wEnv with refreshPost := fun _ => .found basePost, shah := fun _ => "h1" }

/-- C2 counterexample.  A FROZEN item with a pending `update` retry entry:
one pass of retry-queue processing feeds it through `_update_post` (which has
no status check), re-ingests the changed content, and sets the status back
to UPDATING — FROZEN is not terminal under retry-queue processing. -/
theorem C2_counterexample :
    statusOf c2DB "p1" = some .frozen
    ∧ statusOf (applyOp wCfg c2Env .queueOp (St.ofDB c2DB)).db "p1" = some .updating := by
  constructor
  · decide
  · decide

def wFrozenDB : DB :=
  { tracked := [{ wTracked with status := .frozen }]
    posts := []
    comments := []
    queue := []
    nextQueueId := 1 }

/-- C2 witness: the amended theorem applied to a concrete FROZEN item with
an empty retry queue, across the freeze sweep. -/
theorem C2_witness :
    statusOf (applyOp wCfg wEnv PipelineOp.freezeOp (St.ofDB wFrozenDB)).db "p1"
        = some PostStatus.frozen
    ∨ statusOf (applyOp wCfg wEnv PipelineOp.freezeOp (St.ofDB wFrozenDB)).db "p1" = none :=
  (C2_status_one_directional wCfg wEnv wFrozenDB "p1" PipelineOp.freezeOp
    (by decide) (by simp [wFrozenDB])).1 (by decide)

/-! ## Claim C3 — phase selection determined by update_count -/

/-- C3, amended theorem.  On any one store snapshot, membership in the
update-phase selection and in the freeze-sweep selection is exactly
characterised by `update_count` against `freeze_at` (for non-frozen items),
and the two selections are disjoint.  (The original claim that no item both
takes the refresh path and is frozen within the same run fails: the freeze
sweep re-queries the store *after* the update phase, so an item entering the
run at `update_count = freeze_at - 1` is refreshed, bumped to `freeze_at`,
and then frozen in the same run — see `C3_counterexample`.) -/
theorem C3_selection_disjoint (db : DB) (fa : Int) (t : TrackedPost) :
    (t ∈ get_posts_to_update db fa
      ↔ t ∈ db.tracked ∧ t.status ≠ .frozen ∧ t.update_count < fa)
    ∧ (t ∈ get_posts_to_freeze db fa
      ↔ t ∈ db.tracked ∧ t.status ≠ .frozen ∧ fa ≤ t.update_count)
    ∧ ¬(t ∈ get_posts_to_update db fa ∧ t ∈ get_posts_to_freeze db fa) := by
  refine ⟨mem_get_posts_to_update_iff db fa t, mem_get_posts_to_freeze_iff db fa t, ?_⟩
  intro h
  obtain ⟨h1, h2⟩ := h
  rw [mem_get_posts_to_update_iff] at h1
  rw [mem_get_posts_to_freeze_iff] at h2
  exact absurd h2.2.2 (not_le.mpr h1.2.2)

def c3Tracked : TrackedPost :=
  { post_id := "p1"
    subreddit := "s"
    created_utc := 0
    first_scraped := 0
    last_updated := 86400
    update_count := 1
    status := .updating
    contextual_doc_id := some "d1"
    content_hash := "h0" }

def c3DB : DB :=
  { tracked := [c3Tracked]
    posts := []
    comments := []
    queue := []
    nextQueueId := 1 }

/-- C3 counterexample.  With the default thresholds (`refresh_at = 0`,
`freeze_at = 2`), an item entering a run at `update_count = 1` takes the
refresh path (one document re-ingested) *and* is transitioned to FROZEN by
the freeze sweep of the very same run. -/
theorem C3_counterexample :
    (run_pipeline wCfg c2Env c3DB).stats.documents_reingested = 1
    ∧ (run_pipeline wCfg c2Env c3DB).stats.frozen_posts = 1
    ∧ statusOf (run_pipeline wCfg c2Env c3DB).db "p1" = some .frozen
    ∧ statusOf c3DB "p1" = some .updating := by
  refine ⟨by decide, by decide, by decide, by decide⟩

/-! ## Claim C4 — per-item failure isolation -/

/-- C4 (confirmed).  Each phase loop is a left fold over its item snapshot,
so processing `xs ++ ys` always continues into `ys` whatever happened on
`xs` (first three conjuncts: the update phase, the queue drain, and the
scrape phase); and an item whose refresh raises is handled entirely inside
its own step: the failure is recorded in the run statistics
(`queued_for_retry`), the item is enqueued for retry, and the step returns
(fourth conjunct) — no item's failure aborts its phase or the run.
In the embedding the per-item try/except blocks of the source are the
total handling of the `Except`/`FetchResult` outcomes of remote calls. -/
theorem C4_failure_isolation (cfg : Config) (env : Env) (t : TrackedPost) (e : String)
    (hfail : env.refreshPost t.post_id = .fetchFailed e)
    (hday : ¬env.pacificDate t.last_updated = env.pacificDate env.now)
    (hcount : cfg.refresh_at_count ≤ t.update_count) :
    (∀ (s : St) (xs ys : List TrackedPost),
        (xs ++ ys).foldl (fun acc t2 => (update_post cfg env acc t2).1) s
          = ys.foldl (fun acc t2 => (update_post cfg env acc t2).1)
              (xs.foldl (fun acc t2 => (update_post cfg env acc t2).1) s))
    ∧ (∀ (s : St) (xs ys : List QueueEntry),
        (xs ++ ys).foldl (process_queue_item cfg env) s
          = ys.foldl (process_queue_item cfg env) (xs.foldl (process_queue_item cfg env) s))
    ∧ (∀ (s : St) (xs ys : List RedditPost),
        (xs ++ ys).foldl (fun acc p =>
            if should_update env.now cfg.update_window_days p
            then (process_new_post env acc p).1 else acc) s
          = ys.foldl (fun acc p =>
              if should_update env.now cfg.update_window_days p
              then (process_new_post env acc p).1 else acc)
              (xs.foldl (fun acc p =>
                if should_update env.now cfg.update_window_days p
                then (process_new_post env acc p).1 else acc) s))
    ∧ (∀ s : St, update_post cfg env s t
        = (((s.call (.fetchPost t.post_id)).addQueue env t.post_id t.subreddit "update" 0).bump
            (fun st => { st with queued_for_retry := st.queued_for_retry + 1 }), false)) := by
  refine ⟨?_, ?_, ?_, ?_⟩
  · intro s xs ys
    rw [List.foldl_append]
  · intro s xs ys
    rw [List.foldl_append]
  · intro s xs ys
    rw [List.foldl_append]
  · intro s
    simp [update_post, hday, not_lt.mpr hcount, hfail]

def wEnvFail : Env := { wEnv with refreshPost := fun _ => .fetchFailed "net" }

/-- C4 witness: a concrete item whose refresh raises is enqueued and counted
while the update-phase step simply returns `False`. -/
theorem C4_witness :
    update_post wCfg wEnvFail (St.ofDB wDB) wTracked
      = ((((St.ofDB wDB).call (.fetchPost "p1")).addQueue wEnvFail "p1" "s" "update" 0).bump
          (fun st => { st with queued_for_retry := st.queued_for_retry + 1 }), false) :=
  (C4_failure_isolation wCfg wEnvFail wTracked "net" rfl (by decide) (by decide)).2.2.2
    (St.ofDB wDB)

end RedditAgent
